import Mathlib

/-
Verification of the heater-tape control panel's core state logic
(`src/pages/Index.tsx`): entity model (tapes, segments, sensors),
construction and id allocation, persistence migration, the simulation
tick, aggregation, and alert acknowledgment.

Modelling conventions:
- JS numbers are modelled as `ℚ` (temperatures, powers) or `ℤ` (ids).
- `Math.random()` is modelled via an explicit environment `Env` holding a
  stream of samples in `[0, 1)`; every call consumes the head of the
  stream.  `new Date().toLocaleTimeString(..)` is modelled by the ambient
  `Env.time` string.
- `Math.round` is round-half-up towards `+∞`, i.e. `⌊q + 1/2⌋`.
- Fields that may be absent from a persisted JSON blob are `Option`s;
  `??` is `Option.getD` and `||` on strings treats `""` as falsy.
-/

namespace HeaterTape

inductive SensorStatus where
  | online
  | offline
  | error
deriving DecidableEq, Repr

inductive SegStatus where
  | normal
  | warning
  | critical
  | off
deriving DecidableEq, Repr

structure Sensor where
  id : String
  serial : String
  temperature : ℚ
  status : SensorStatus
  lastUpdate : String
deriving DecidableEq, Repr

structure Segment where
  id : ℤ
  name : String
  enabled : Bool
  power : ℚ
  temperature : ℚ
  targetTemp : ℚ
  status : SegStatus
  sensorId : String
  sensors : List Sensor
deriving DecidableEq, Repr

structure Tape where
  id : ℤ
  name : String
  coordinates : String
  contractNumber : String
  length : String
  width : String
  segments : List Segment
  enabled : Bool
deriving DecidableEq, Repr

structure Alert where
  id : ℤ
  timestamp : String
  severity : String
  message : String
  acknowledged : Bool
deriving DecidableEq, Repr

/-- Environment for the impure parts of the source: a stream of
`Math.random()` samples and the current wall-clock display string. -/
structure Env where
  rand : ℕ → ℚ
  time : String

/-- Consume one `Math.random()` sample. -/
def Env.next (e : Env) : ℚ × Env :=
  (e.rand 0, { e with rand := fun n => e.rand (n + 1) })

/-- A well-formed random stream: every sample lies in `[0, 1)`. -/
def Env.Valid (e : Env) : Prop :=
  ∀ n, 0 ≤ e.rand n ∧ e.rand n < 1

/-- JS `Math.round`: round half up (towards `+∞`). -/
def jsRound (q : ℚ) : ℤ :=
  ⌊q + 1 / 2⌋

/-- JS `String.prototype.padStart(n, "0")`. -/
def padZero (s : String) (n : ℕ) : String :=
  String.mk (List.replicate (n - s.length) '0') ++ s

/-- JS `n.toString(16).toUpperCase().padStart(2, "0")` for a natural number. -/
def toHex2 (n : ℕ) : String :=
  padZero (String.mk (Nat.toDigits 16 n)).toUpper 2

/-- State-passing `map`: threads the environment left to right, as JS
callbacks that call `Math.random()` do. -/
def mapRS (f : α → Env → β × Env) : List α → Env → List β × Env
  | [], e => ([], e)
  | x :: xs, e =>
    ((f x e).1 :: (mapRS f xs (f x e).2).1, (mapRS f xs (f x e).2).2)

/-- Source `generateSerial`: `` `28-${hex()}${hex()}${hex()}${hex()}${hex()}${hex()}` ``
with `hex() = Math.floor(Math.random() * 256).toString(16).toUpperCase().padStart(2, "0")`. -/
def generateSerial (e : Env) : String × Env :=
  let (r1, e1) := e.next
  let (r2, e2) := e1.next
  let (r3, e3) := e2.next
  let (r4, e4) := e3.next
  let (r5, e5) := e4.next
  let (r6, e6) := e5.next
  ("28-" ++ toHex2 (⌊r1 * 256⌋).toNat ++ toHex2 (⌊r2 * 256⌋).toNat ++
    toHex2 (⌊r3 * 256⌋).toNat ++ toHex2 (⌊r4 * 256⌋).toNat ++
    toHex2 (⌊r5 * 256⌋).toNat ++ toHex2 (⌊r6 * 256⌋).toNat, e6)

/-- Source `createSensors(segId, count)`. -/
def createSensors (segId : ℤ) (count : ℕ) (e : Env) : List Sensor × Env :=
  mapRS (fun (j : ℕ) e =>
    let (serial, e1) := generateSerial e
    let (rt, e2) := e1.next
    let (rs, e3) := e2.next
    ({ id := "DS18B20-" ++ padZero (toString segId) 2 ++ padZero (toString (j + 1)) 2,
       serial := serial,
       temperature := -5 + ((⌊rt * 15⌋ : ℤ) : ℚ),
       status := if rs > 9 / 10 then SensorStatus.offline else SensorStatus.online,
       lastUpdate := e.time }, e3)) (List.range count) e

/-- Source `createSegment(id, enabled)`.  The random draws happen in source
order: sensor count, then the sensors, then `power`, then (only when
`enabled`) the `status` draw. -/
def createSegment (id : ℤ) (enabled : Bool) (e : Env) : Segment × Env :=
  let (r0, e1) := e.next
  let sensorCount : ℕ := (2 + ⌊r0 * 3⌋).toNat
  let (sensors, e2) := createSensors id sensorCount e1
  let avgTemp : ℚ := (sensors.foldl (fun a s => a + s.temperature) 0) / (sensors.length : ℚ)
  let (rp, e3) := e2.next
  let (status, e4) :=
    if enabled then
      let (rs, e4) := e3.next
      ((if rs > 4 / 5 then SegStatus.warning else SegStatus.normal), e4)
    else (SegStatus.off, e3)
  ({ id := id,
     name := "Сегмент " ++ toString id,
     enabled := enabled,
     power := 40 + ((⌊rp * 50⌋ : ℤ) : ℚ),
     temperature := ((jsRound (avgTemp * 10) : ℤ) : ℚ) / 10,
     targetTemp := 5,
     status := status,
     sensorId := "DS18B20-" ++ padZero (toString id) 3,
     sensors := sensors }, e4)

/-- Source `createTape(id, segStartId, segCount)`: segment `i` is enabled
iff `i < Math.ceil(segCount * 0.7)`. -/
def createTape (id segStartId : ℤ) (segCount : ℕ) (e : Env) : Tape × Env :=
  let (segments, e1) :=
    mapRS (fun (i : ℕ) e =>
      createSegment (segStartId + (i : ℤ))
        (decide ((i : ℤ) < ⌈(segCount : ℚ) * (7 / 10)⌉)) e) (List.range segCount) e
  ({ id := id,
     name := "Лента " ++ toString id,
     coordinates := "",
     contractNumber := "",
     length := "24",
     width := "50",
     segments := segments,
     enabled := true }, e1)

/-- Source `createInitialTapes()`. -/
def createInitialTapes (e : Env) : List Tape × Env :=
  let (t1, e1) := createTape 1 1 6 e
  let (t2, e2) := createTape 2 7 6 e1
  ([{ t1 with coordinates := "55.7558, 37.6173", contractNumber := "№2024-001" },
    { t2 with coordinates := "55.7600, 37.6200", contractNumber := "№2024-002" }], e2)

/-- Source `getMaxSegId`: `Math.max(...)` over all segment ids when the
flattened list is non-empty, else `0`. -/
def getMaxSegId (tapes : List Tape) : ℤ :=
  match (tapes.flatMap fun t => t.segments).map (fun s => s.id) with
  | [] => 0
  | x :: xs => xs.foldl max x

/-- Source `toggleTape`. -/
def toggleTape (tapeId : ℤ) (ts : List Tape) : List Tape :=
  ts.map fun t => if t.id = tapeId then { t with enabled := !t.enabled } else t

/-- Field selector for `updateTapeField`; the source's call sites use
exactly the five string keys modelled here. -/
inductive TapeField where
  | name
  | coordinates
  | contractNumber
  | length
  | width
deriving DecidableEq, Repr

/-- Source `updateTapeField`. -/
def updateTapeField (tapeId : ℤ) (f : TapeField) (v : String) (ts : List Tape) : List Tape :=
  ts.map fun t =>
    if t.id = tapeId then
      match f with
      | TapeField.name => { t with name := v }
      | TapeField.coordinates => { t with coordinates := v }
      | TapeField.contractNumber => { t with contractNumber := v }
      | TapeField.length => { t with length := v }
      | TapeField.width => { t with width := v }
    else t

/-- Source `addTape`: tape id allocator is `prev.reduce((m, t) => Math.max(m, t.id), 0) + 1`. -/
def addTape (ts : List Tape) (e : Env) : List Tape × Env :=
  let maxTapeId : ℤ := ts.foldl (fun m t => max m t.id) 0
  let maxSeg : ℤ := getMaxSegId ts
  let (t, e1) := createTape (maxTapeId + 1) (maxSeg + 1) 4 e
  (ts ++ [t], e1)

/-- Source `removeTape`: refuses to delete the last remaining tape. -/
def removeTape (tapeId : ℤ) (ts : List Tape) : List Tape :=
  if 1 < ts.length then ts.filter (fun t => decide (t.id ≠ tapeId)) else ts

/-- The per-tape callback of `addSegmentToTape`: a matching tape gets one
appended disabled segment with id `m + 1` and consumes randomness, any
other tape is untouched. -/
def addSegStep (tapeId m : ℤ) (t : Tape) (e : Env) : Tape × Env :=
  if t.id = tapeId then
    let (s, e1) := createSegment (m + 1) false e
    ({ t with segments := t.segments ++ [s] }, e1)
  else (t, e)

/-- Source `addSegmentToTape`: appends one disabled segment with id
`getMaxSegId(prev) + 1` to the addressed tape; `createSegment` only runs
(and only consumes randomness) for a matching tape. -/
def addSegmentToTape (tapeId : ℤ) (ts : List Tape) (e : Env) : List Tape × Env :=
  mapRS (addSegStep tapeId (getMaxSegId ts)) ts e

/-- Source `removeSegmentFromTape`: refuses to delete a tape's last segment. -/
def removeSegmentFromTape (tapeId segId : ℤ) (ts : List Tape) : List Tape :=
  ts.map fun t =>
    if t.id = tapeId then
      { t with segments :=
          if 1 < t.segments.length then t.segments.filter (fun s => decide (s.id ≠ segId))
          else t.segments }
    else t

/-- Source `toggleSegment`: flips `enabled` and sets `status` from the old
`enabled` flag (`normal` when turning on, `off` when turning off). -/
def toggleSegment (tapeId segId : ℤ) (ts : List Tape) : List Tape :=
  ts.map fun t =>
    if t.id = tapeId then
      { t with segments := t.segments.map fun s =>
          if s.id = segId then
            { s with enabled := !s.enabled,
                     status := if !s.enabled then SegStatus.normal else SegStatus.off }
          else s }
    else t

/-- Source `setSegPower`. -/
def setSegPower (tapeId segId : ℤ) (power : ℚ) (ts : List Tape) : List Tape :=
  ts.map fun t =>
    if t.id = tapeId then
      { t with segments := t.segments.map fun s =>
          if s.id = segId then { s with power := power } else s }
    else t

/-- Source `setSegTargetTemp`. -/
def setSegTargetTemp (tapeId segId : ℤ) (targetTemp : ℚ) (ts : List Tape) : List Tape :=
  ts.map fun t =>
    if t.id = tapeId then
      { t with segments := t.segments.map fun s =>
          if s.id = segId then { s with targetTemp := targetTemp } else s }
    else t

/-- The inline "Вкл. все" handler: enables every segment of the addressed
tape and sets their status to `normal`. -/
def enableAllSegments (tapeId : ℤ) (ts : List Tape) : List Tape :=
  ts.map fun t =>
    if t.id = tapeId then
      { t with segments := t.segments.map fun s =>
          { s with enabled := true, status := SegStatus.normal } }
    else t

/-- The inline "Выкл. все" handler: disables every segment of the addressed
tape and sets their status to `off`. -/
def disableAllSegments (tapeId : ℤ) (ts : List Tape) : List Tape :=
  ts.map fun t =>
    if t.id = tapeId then
      { t with segments := t.segments.map fun s =>
          { s with enabled := false, status := SegStatus.off } }
    else t

/-- Source `acknowledgeAlert`. -/
def acknowledgeAlert (id : ℤ) (alerts : List Alert) : List Alert :=
  alerts.map fun a => if a.id = id then { a with acknowledged := true } else a

/-- The per-segment body of the simulation tick: a segment with
`segment.enabled AND tape.enabled` gets a random drift in `[-0.75, 0.75)`
added to its temperature, rounded back to one decimal; any other segment
is returned as-is without consuming randomness. -/
def tickSeg (t : Tape) (s : Segment) (e : Env) : Segment × Env :=
  if !s.enabled || !t.enabled then (s, e)
  else
    let (r, e1) := e.next
    let drift : ℚ := (r - 1 / 2) * (3 / 2)
    ({ s with temperature := ((jsRound ((s.temperature + drift) * 10) : ℤ) : ℚ) / 10 }, e1)

/-- The per-tape body of the simulation tick. -/
def tickTape (t : Tape) (e : Env) : Tape × Env :=
  let (segs, e1) := mapRS (tickSeg t) t.segments e
  ({ t with segments := segs }, e1)

/-- The simulation-tick `useEffect` body. -/
def simTick (ts : List Tape) (e : Env) : List Tape × Env :=
  mapRS tickTape ts e

/-- Source `allSegments`. -/
def allSegments (ts : List Tape) : List Segment :=
  ts.flatMap fun t => t.segments

/-- Source `enabledSegments`: note the filter looks only at the segment's
own `enabled` flag. -/
def enabledSegments (ts : List Tape) : List Segment :=
  (allSegments ts).filter fun s => s.enabled

/-- Source `activeCount`. -/
def activeCount (ts : List Tape) : ℕ :=
  (enabledSegments ts).length

/-- Numeric core of the source `avgTemp`: the mean temperature over
`enabledSegments`, or `none` when there are no enabled segments (the
source then renders the dash placeholder; `toFixed(1)` is display-only). -/
def avgTempQ (ts : List Tape) : Option ℚ :=
  if 0 < activeCount ts then
    some (((enabledSegments ts).foldl (fun a s => a + s.temperature) 0) / (activeCount ts : ℚ))
  else none

/-- Numeric core of the source `totalPower`: `Σ (power / 100) * 0.5` over
`enabledSegments` (`toFixed(1)` is display-only). -/
def totalPowerQ (ts : List Tape) : ℚ :=
  (enabledSegments ts).foldl (fun a s => a + (s.power / 100) * (1 / 2)) 0

/-- Modelled from the spec for comparison: the effective-enabled segments,
`segment.enabled AND tape.enabled`. -/
def specEffSegments (ts : List Tape) : List Segment :=
  ts.flatMap fun t => t.segments.filter fun s => s.enabled && t.enabled

/-- Modelled from the spec for comparison: `activeSegmentCount` over
effective-enabled segments. -/
def specActiveCount (ts : List Tape) : ℕ :=
  (specEffSegments ts).length

/-- Modelled from the spec for comparison: mean temperature over
effective-enabled segments, unavailable when that set is empty. -/
def specAvgTemp (ts : List Tape) : Option ℚ :=
  if 0 < specActiveCount ts then
    some (((specEffSegments ts).foldl (fun a s => a + s.temperature) 0) / (specActiveCount ts : ℚ))
  else none

/-- Modelled from the spec for comparison: `totalPowerKW` over
effective-enabled segments. -/
def specTotalPower (ts : List Tape) : ℚ :=
  (specEffSegments ts).foldl (fun a s => a + (s.power / 100) * (1 / 2)) 0

/-- A segment as it may appear in a persisted blob: like `Segment` but the
`sensors` field may be missing (or not an array), modelled as `none`. -/
structure BlobSegment where
  id : ℤ
  name : String
  enabled : Bool
  power : ℚ
  temperature : ℚ
  targetTemp : ℚ
  status : SegStatus
  sensorId : String
  sensors : Option (List Sensor)
deriving DecidableEq, Repr

/-- A tape as it may appear in a persisted blob: optional fields model
keys that may be absent (`undefined`). -/
structure BlobTape where
  id : ℤ
  name : String
  coordinates : Option String
  contractNumber : Option String
  length : Option String
  width : Option String
  segments : Option (List BlobSegment)
  enabled : Option Bool
deriving DecidableEq, Repr

/-- The parsed persisted blob (`JSON.parse` result of the stored value):
the current-shape keys plus the legacy flat-segment keys. -/
structure Blob where
  tapes : Option (List BlobTape)
  segments : Option (List BlobSegment)
  tapeLength : Option String
  tapeWidth : Option String
  alerts : Option (List Alert)
  systemOn : Option Bool
  autoMode : Option Bool
  thresholdTemp : Option String
  alertSound : Option String
  pollInterval : Option String
deriving DecidableEq, Repr

/-- JS `a || b` for an optional string: `undefined` and `""` are falsy. -/
def jsOrStr (o : Option String) (d : String) : String :=
  match o with
  | none => d
  | some s => if s = "" then d else s

/-- The per-segment body of `migrateSegments`: a segment lacking a
`sensors` array gets a fresh one with `2 + Math.floor(Math.random() * 3)`
sensors, any other segment is kept as-is. -/
def migrateSegStep (s : BlobSegment) (e : Env) : BlobSegment × Env :=
  match s.sensors with
  | none =>
    let (r, e1) := e.next
    let (ss, e2) := createSensors s.id (2 + ⌊r * 3⌋).toNat e1
    ({ s with sensors := some ss }, e2)
  | some _ => (s, e)

/-- Source `migrateSegments`. -/
def migrateSegments (segs : List BlobSegment) (e : Env) : List BlobSegment × Env :=
  mapRS migrateSegStep segs e

theorem migrateSegStep_none (s : BlobSegment) (e : Env) (h : s.sensors = none) :
    migrateSegStep s e =
      ({ s with sensors := some (createSensors s.id (2 + ⌊e.next.1 * 3⌋).toNat e.next.2).1 },
        (createSensors s.id (2 + ⌊e.next.1 * 3⌋).toNat e.next.2).2) := by
  unfold migrateSegStep
  rw [h]

theorem migrateSegStep_some (s : BlobSegment) (e : Env) (v : List Sensor)
    (h : s.sensors = some v) : migrateSegStep s e = (s, e) := by
  unfold migrateSegStep
  rw [h]

/-- Source `migrateTapes`: normalizes every optional tape field
(`?? ""`, `?? "24"`, `?? "50"`, `enabled` defaulting to `true`,
`segments || []`) and migrates the segments. -/
def migrateTapes (ts : List BlobTape) (e : Env) : List BlobTape × Env :=
  mapRS (fun t e =>
    let (segs, e1) := migrateSegments (t.segments.getD []) e
    ({ t with
        coordinates := some (t.coordinates.getD ""),
        contractNumber := some (t.contractNumber.getD ""),
        length := some (t.length.getD "24"),
        width := some (t.width.getD "50"),
        enabled := some (t.enabled.getD true),
        segments := some segs }, e1)) ts e

/-- The pure core of the source `loadSettings` (after `localStorage` read
and `JSON.parse` succeed): the legacy branch wraps a flat `segments` list
into a single synthesized tape and deletes the legacy key, then any
`tapes` list is normalized by `migrateTapes`. -/
def loadSettings (b : Blob) (e : Env) : Blob × Env :=
  let (b1, e1) :=
    match b.segments, b.tapes with
    | some segs, none =>
      let (msegs, e1) := migrateSegments segs e
      ({ b with
          tapes := some [{ id := 1,
                           name := "Лента 1",
                           coordinates := some "",
                           contractNumber := some "",
                           length := some (jsOrStr b.tapeLength "24"),
                           width := some (jsOrStr b.tapeWidth "50"),
                           segments := some msegs,
                           enabled := some true }],
          segments := none }, e1)
    | _, _ => (b, e)
  match b1.tapes with
  | some ts =>
    let (ts2, e2) := migrateTapes ts e1
    ({ b1 with tapes := some ts2 }, e2)
  | none => (b1, e1)

section MapRSLemmas

variable {α β : Type} {f : α → Env → β × Env}

theorem mapRS_nil (e : Env) : mapRS f [] e = ([], e) :=
  rfl

theorem mapRS_cons (x : α) (xs : List α) (e : Env) :
    mapRS f (x :: xs) e =
      ((f x e).1 :: (mapRS f xs (f x e).2).1, (mapRS f xs (f x e).2).2) :=
  rfl

theorem mapRS_length (l : List α) (e : Env) : (mapRS f l e).1.length = l.length := by
  induction l generalizing e with
  | nil => rfl
  | cons x xs ih => simp [mapRS_cons, ih]

theorem mapRS_eq_of_id (l : List α) (e : Env) (f : α → Env → α × Env)
    (h : ∀ x ∈ l, ∀ e, f x e = (x, e)) : mapRS f l e = (l, e) := by
  induction l generalizing e with
  | nil => rfl
  | cons x xs ih =>
    have h2 : ∀ y ∈ xs, ∀ e, f y e = (y, e) :=
      fun y hy e => h y (List.mem_cons_of_mem x hy) e
    simp [mapRS_cons, h x (by simp), ih e h2]

theorem mapRS_mem_prop {P : β → Prop} (hf : ∀ x e, P (f x e).1) :
    ∀ (l : List α) (e : Env), ∀ y ∈ (mapRS f l e).1, P y := by
  intro l
  induction l with
  | nil => intro e y hy; simp [mapRS_nil] at hy
  | cons x xs ih =>
    intro e y hy
    rw [mapRS_cons] at hy
    rcases List.mem_cons.mp hy with h | h
    · exact h ▸ hf x e
    · exact ih _ y h

theorem mapRS_forall2 (P : α → β → Prop) (Q : α → Prop) (Inv : Env → Prop)
    (hf : ∀ x, Q x → ∀ e, Inv e → P x (f x e).1 ∧ Inv (f x e).2) :
    ∀ (l : List α) (e : Env), (∀ x ∈ l, Q x) → Inv e →
      List.Forall₂ P l (mapRS f l e).1 ∧ Inv (mapRS f l e).2 := by
  intro l
  induction l with
  | nil => intro e _ he; exact ⟨List.Forall₂.nil, he⟩
  | cons x xs ih =>
    intro e hq he
    obtain ⟨hp, he1⟩ := hf x (hq x (by simp)) e he
    obtain ⟨hps, he2⟩ := ih (f x e).2 (fun y hy => hq y (by simp [hy])) he1
    exact ⟨by rw [mapRS_cons]; exact List.Forall₂.cons hp hps, by rw [mapRS_cons]; exact he2⟩

theorem mapRS_inv {Inv : Env → Prop} (hf : ∀ x e, Inv e → Inv (f x e).2) :
    ∀ (l : List α) (e : Env), Inv e → Inv (mapRS f l e).2 := by
  intro l
  induction l with
  | nil => intro e he; exact he
  | cons x xs ih =>
    intro e he
    rw [mapRS_cons]
    exact ih _ (hf x e he)

theorem mapRS_map_fst {γ : Type} {g : β → γ} {h : α → γ}
    (hg : ∀ x e, g (f x e).1 = h x) :
    ∀ (l : List α) (e : Env), (mapRS f l e).1.map g = l.map h := by
  intro l
  induction l with
  | nil => intro e; rfl
  | cons x xs ih => intro e; simp [mapRS_cons, hg, ih]

end MapRSLemmas

section MaxLemmas

theorem foldl_max_shift (l : List ℤ) : ∀ a x : ℤ, l.foldl max (max a x) = max a (l.foldl max x) := by
  induction l with
  | nil => intro a x; rfl
  | cons y ys ih =>
    intro a x
    simp only [List.foldl_cons]
    rw [max_assoc, ih]

theorem self_le_foldl_max (l : List ℤ) : ∀ a : ℤ, a ≤ l.foldl max a := by
  induction l with
  | nil => intro a; exact le_refl a
  | cons x xs ih =>
    intro a
    simp only [List.foldl_cons]
    exact le_trans (le_max_left a x) (ih (max a x))

theorem mem_le_foldl_max (l : List ℤ) : ∀ a : ℤ, ∀ x ∈ l, x ≤ l.foldl max a := by
  induction l with
  | nil => intro a x hx; simp at hx
  | cons y ys ih =>
    intro a x hx
    rcases List.mem_cons.mp hx with h | h
    · subst h
      simp only [List.foldl_cons]
      exact le_trans (le_max_right a x) (self_le_foldl_max ys (max a x))
    · exact ih (max a y) x h

/-- The true maximum of a list with a default for the empty list; this is
how both the claims and `Math.max(...)` on a non-empty spread behave. -/
def listMaxD (l : List ℤ) (d : ℤ) : ℤ :=
  match l with
  | [] => d
  | x :: xs => xs.foldl max x

theorem foldl_max_zero_eq_listMaxD (l : List ℤ) (h : ∀ x ∈ l, 0 ≤ x) :
    l.foldl max 0 = listMaxD l 0 := by
  cases l with
  | nil => rfl
  | cons x xs =>
    simp only [List.foldl_cons, listMaxD]
    rw [foldl_max_shift]
    exact max_eq_right (le_trans (h x (by simp)) (self_le_foldl_max xs x))

theorem mem_le_listMaxD (l : List ℤ) (d : ℤ) : ∀ x ∈ l, x ≤ listMaxD l d := by
  intro x hx
  cases l with
  | nil => simp at hx
  | cons y ys =>
    simp only [listMaxD]
    rcases List.mem_cons.mp hx with h | h
    · exact h ▸ self_le_foldl_max ys y
    · exact mem_le_foldl_max ys y x h

theorem getMaxSegId_eq_listMaxD (ts : List Tape) :
    getMaxSegId ts = listMaxD ((allSegments ts).map fun s => s.id) 0 := by
  unfold getMaxSegId listMaxD allSegments
  cases (ts.flatMap fun t => t.segments).map (fun s => s.id) <;> rfl

theorem seg_le_getMaxSegId (ts : List Tape) :
    ∀ s ∈ allSegments ts, s.id ≤ getMaxSegId ts := by
  intro s hs
  rw [getMaxSegId_eq_listMaxD]
  exact mem_le_listMaxD _ 0 s.id (List.mem_map_of_mem _ hs)

end MaxLemmas

section EnvLemmas

theorem Env.Valid.tail {e : Env} (h : e.Valid) : (e.next).2.Valid := by
  intro n
  exact h (n + 1)

theorem Env.Valid.head {e : Env} (h : e.Valid) : 0 ≤ (e.next).1 ∧ (e.next).1 < 1 :=
  h 0

theorem generateSerial_valid {e : Env} (h : e.Valid) : (generateSerial e).2.Valid := by
  unfold generateSerial
  exact h.tail.tail.tail.tail.tail.tail

theorem createSensors_valid (segId : ℤ) (count : ℕ) {e : Env} (h : e.Valid) :
    (createSensors segId count e).2.Valid := by
  unfold createSensors
  refine mapRS_inv (fun j e he => ?_) _ e h
  exact ((generateSerial_valid he).tail).tail

theorem createSegment_valid (id : ℤ) (b : Bool) {e : Env} (h : e.Valid) :
    (createSegment id b e).2.Valid := by
  unfold createSegment
  cases b with
  | false =>
    simp only [Bool.false_eq_true, if_false]
    exact (createSensors_valid _ _ h.tail).tail
  | true =>
    simp only [if_true]
    exact ((createSensors_valid _ _ h.tail).tail).tail

end EnvLemmas

section ListHelpers

theorem map_id_of_eq {α : Type} {l : List α} {f : α → α} (h : ∀ x ∈ l, f x = x) :
    l.map f = l := by
  induction l with
  | nil => rfl
  | cons x xs ih =>
    simp [h x (by simp), ih (fun y hy => h y (List.mem_cons_of_mem x hy))]

theorem filter_eq_self_of {α : Type} {l : List α} {p : α → Bool}
    (h : ∀ x ∈ l, p x = true) : l.filter p = l := by
  induction l with
  | nil => rfl
  | cons x xs ih =>
    simp [List.filter_cons, h x (by simp), ih (fun y hy => h y (List.mem_cons_of_mem x hy))]

theorem map_seg_update_noop (ts : List Tape) (tapeId : ℤ) (g : Segment → Segment)
    (h : ∀ t ∈ ts, t.id = tapeId → t.segments.map g = t.segments) :
    (ts.map fun t => if t.id = tapeId then { t with segments := t.segments.map g } else t) = ts := by
  refine map_id_of_eq (fun t ht => ?_)
  by_cases hid : t.id = tapeId
  · rw [if_pos hid, h t ht hid]
  · rw [if_neg hid]

end ListHelpers

/--
C9: `acknowledgeAlert(id)` sets `acknowledged` to `true` on the alert with
that id and changes nothing else about any alert; the transition is
one-way (an acknowledged alert never becomes unacknowledged) and
idempotent: acknowledging twice equals acknowledging once.
-/
theorem C9_acknowledge_correct (alerts : List Alert) (i : ℤ) :
    List.Forall₂ (fun a a' =>
      a' = { a with acknowledged := a'.acknowledged } ∧
      (a.id = i → a'.acknowledged = true) ∧
      (a.id ≠ i → a' = a) ∧
      (a.acknowledged = true → a'.acknowledged = true))
      alerts (acknowledgeAlert i alerts) ∧
    acknowledgeAlert i (acknowledgeAlert i alerts) = acknowledgeAlert i alerts := by
  constructor
  · unfold acknowledgeAlert
    rw [List.forall₂_map_right_iff, List.forall₂_same]
    intro a _
    by_cases h : a.id = i
    · simp [h]
    · simp [h]
  · unfold acknowledgeAlert
    rw [List.map_map]
    apply List.map_congr_left
    intro a _
    by_cases h : a.id = i
    · simp [h]
    · simp [h]

/--
C10: every command addressed to an id absent from the current state is a
total silent no-op: toggleTape, removeTape, updateTapeField and
addSegmentToTape for a missing tape id; toggleSegment, setSegPower,
setSegTargetTemp and removeSegmentFromTape for a missing segment id on the
addressed tape; acknowledgeAlert for a missing alert id.
-/
theorem C10_missing_id_noop (ts : List Tape) (e : Env) (tapeId tapeId2 segId : ℤ)
    (alerts : List Alert) (i : ℤ) :
    ((∀ t ∈ ts, t.id ≠ tapeId) →
      toggleTape tapeId ts = ts ∧
      removeTape tapeId ts = ts ∧
      (∀ f v, updateTapeField tapeId f v ts = ts) ∧
      addSegmentToTape tapeId ts e = (ts, e)) ∧
    ((∀ t ∈ ts, t.id = tapeId2 → ∀ s ∈ t.segments, s.id ≠ segId) →
      toggleSegment tapeId2 segId ts = ts ∧
      (∀ p, setSegPower tapeId2 segId p ts = ts) ∧
      (∀ v, setSegTargetTemp tapeId2 segId v ts = ts) ∧
      removeSegmentFromTape tapeId2 segId ts = ts) ∧
    ((∀ a ∈ alerts, a.id ≠ i) → acknowledgeAlert i alerts = alerts) := by
  refine ⟨fun h => ⟨?_, ?_, ?_, ?_⟩, fun h => ⟨?_, ?_, ?_, ?_⟩, fun h => ?_⟩
  · exact map_id_of_eq (fun t ht => by simp [h t ht])
  · unfold removeTape
    split
    · exact filter_eq_self_of (fun t ht => by simp [h t ht])
    · rfl
  · intro f v
    exact map_id_of_eq (fun t ht => by simp [h t ht])
  · exact mapRS_eq_of_id ts e _ (fun t ht e => by simp [addSegStep, h t ht])
  · exact map_seg_update_noop ts tapeId2 _ (fun t ht hid =>
      map_id_of_eq (fun s hs => by simp [h t ht hid s hs]))
  · intro p
    exact map_seg_update_noop ts tapeId2 _ (fun t ht hid =>
      map_id_of_eq (fun s hs => by simp [h t ht hid s hs]))
  · intro v
    exact map_seg_update_noop ts tapeId2 _ (fun t ht hid =>
      map_id_of_eq (fun s hs => by simp [h t ht hid s hs]))
  · refine map_id_of_eq (fun t ht => ?_)
    by_cases hid : t.id = tapeId2
    · have hf : t.segments.filter (fun s => decide (s.id ≠ segId)) = t.segments :=
        filter_eq_self_of (fun s hs => by simp [h t ht hid s hs])
      rw [if_pos hid, hf, ite_self]
    · rw [if_neg hid]
  · exact map_id_of_eq (fun a ha => by simp [h a ha])

/-- An enabled segment sitting on a disabled tape, used to separate the
source aggregation from the spec's effective-enabled aggregation. -/
def cexSegOn : Segment :=
  { id := 1, name := "Сегмент 1", enabled := true, power := 100, temperature := 5,
    targetTemp := 5, status := SegStatus.normal, sensorId := "DS18B20-001", sensors := [] }

/-- A disabled tape holding the single enabled segment `cexSegOn`. -/
def cexTapeOff : Tape :=
  { id := 1, name := "Лента 1", coordinates := "", contractNumber := "", length := "24",
    width := "50", segments := [cexSegOn], enabled := false }

/--
C1 counterexample: on a disabled tape holding one enabled segment the
source aggregates count the segment (`activeCount = 1`, `avgTemp = 5`,
`totalPower = 0.5 kW`) while the claimed effective-enabled aggregation
excludes it (count 0, average unavailable, power 0), so a segment does
NOT contribute iff `segment.enabled AND tape.enabled`.
-/
theorem C1_counterexample :
    activeCount [cexTapeOff] = 1 ∧ specActiveCount [cexTapeOff] = 0 ∧
    avgTempQ [cexTapeOff] = some 5 ∧ specAvgTemp [cexTapeOff] = none ∧
    totalPowerQ [cexTapeOff] = 1 / 2 ∧ specTotalPower [cexTapeOff] = 0 := by
  refine ⟨rfl, rfl, ?_, rfl, ?_, rfl⟩
  · show some ((0 + (5 : ℚ)) / ((1 : ℕ) : ℚ)) = some 5
    norm_num
  · show 0 + ((100 : ℚ) / 100) * (1 / 2) = 1 / 2
    norm_num

theorem filter_enabled_flatMap (ts : List Tape) :
    (ts.flatMap fun t => t.segments).filter (fun s => s.enabled) =
      ts.flatMap fun t => t.segments.filter fun s => s.enabled := by
  induction ts with
  | nil => rfl
  | cons t ts ih => simp [List.flatMap_cons, List.filter_append, ih]

theorem allSegments_toggleTape (tapeId : ℤ) (ts : List Tape) :
    allSegments (toggleTape tapeId ts) = allSegments ts := by
  induction ts with
  | nil => rfl
  | cons t ts ih =>
    simp only [toggleTape, List.map_cons, allSegments, List.flatMap_cons] at ih ⊢
    by_cases hid : t.id = tapeId
    · rw [if_pos hid]
      exact congrArg _ ih
    · rw [if_neg hid]
      exact congrArg _ ih

/--
C1 (amended): a segment contributes to `activeCount`/`avgTemp`/`totalPower`
iff its own `enabled` flag is true, regardless of the owning tape's
`enabled` flag: the three aggregates are invariant under toggling any
tape, the aggregated segment list is exactly the per-tape
segment-enabled filter, and the average is unavailable iff no segment
anywhere has `enabled = true`.
-/
theorem C1_aggregates_use_segment_enabled_only (ts : List Tape) (tapeId : ℤ) :
    (activeCount (toggleTape tapeId ts) = activeCount ts ∧
     avgTempQ (toggleTape tapeId ts) = avgTempQ ts ∧
     totalPowerQ (toggleTape tapeId ts) = totalPowerQ ts) ∧
    enabledSegments ts = ts.flatMap (fun t => t.segments.filter fun s => s.enabled) ∧
    (avgTempQ ts = none ↔ ∀ t ∈ ts, ∀ s ∈ t.segments, s.enabled = false) := by
  have hseg : enabledSegments (toggleTape tapeId ts) = enabledSegments ts := by
    unfold enabledSegments
    rw [allSegments_toggleTape]
  refine ⟨⟨?_, ?_, ?_⟩, ?_, ?_⟩
  · unfold activeCount
    rw [hseg]
  · unfold avgTempQ activeCount
    rw [hseg]
  · unfold totalPowerQ
    rw [hseg]
  · unfold enabledSegments allSegments
    exact filter_enabled_flatMap ts
  · unfold avgTempQ activeCount
    constructor
    · intro h t ht s hs
      by_contra hcon
      have hmem : s ∈ enabledSegments ts := by
        unfold enabledSegments allSegments
        rw [List.mem_filter]
        exact ⟨List.mem_flatMap.mpr ⟨t, ht, hs⟩, by simpa using hcon⟩
      have hlen : 0 < (enabledSegments ts).length := List.length_pos.mpr (by
        intro hnil
        rw [hnil] at hmem
        simp at hmem)
      rw [if_pos hlen] at h
      exact Option.some_ne_none _ h
    · intro h
      have hnil : enabledSegments ts = [] := by
        unfold enabledSegments allSegments
        rw [List.filter_eq_nil_iff]
        intro s hs
        obtain ⟨t, ht, hst⟩ := List.mem_flatMap.mp hs
        simp [h t ht s hst]
      rw [hnil]
      simp

theorem length_le_filter_ne_succ {α : Type} (l : List α) (f : α → ℤ) (v : ℤ)
    (h : (l.map f).Nodup) :
    l.length ≤ (l.filter fun x => decide (f x ≠ v)).length + 1 := by
  induction l with
  | nil => simp
  | cons x xs ih =>
    simp only [List.map_cons, List.nodup_cons] at h
    by_cases hv : f x = v
    · have hvnotin : v ∉ xs.map f := hv ▸ h.1
      have hall : xs.filter (fun y => decide (f y ≠ v)) = xs :=
        filter_eq_self_of (fun y hy => decide_eq_true (fun hyv : f y = v =>
          hvnotin (hyv ▸ List.mem_map_of_mem f hy)))
      have hx : (decide (f x ≠ v)) = false := by simp [hv]
      rw [List.filter_cons, hx, if_neg Bool.false_ne_true, hall]
      simp
    · have hx : (decide (f x ≠ v)) = true := decide_eq_true hv
      rw [List.filter_cons, hx, if_pos rfl]
      simp only [List.length_cons]
      exact Nat.succ_le_succ (ih h.2)

/--
C4: `removeTape` is a silent no-op when exactly one tape remains and
otherwise deletes the addressed tape, never reducing the tape count below
one; `removeSegmentFromTape` leaves the addressed tape unchanged when it
has a single segment and otherwise deletes the addressed segment, never
reducing any tape's segment count below one.
-/
theorem C4_nonempty_guards (ts : List Tape) (tapeId segId : ℤ)
    (h1 : (ts.map fun t => t.id).Nodup)
    (h2 : ∀ t ∈ ts, 1 ≤ t.segments.length ∧ (t.segments.map fun s => s.id).Nodup)
    (h3 : 1 ≤ ts.length) :
    ((ts.length = 1 → removeTape tapeId ts = ts) ∧
     (1 < ts.length →
        removeTape tapeId ts = ts.filter (fun t => decide (t.id ≠ tapeId)) ∧
        (∀ t ∈ removeTape tapeId ts, t.id ≠ tapeId) ∧
        (∀ t ∈ ts, t.id ≠ tapeId → t ∈ removeTape tapeId ts)) ∧
     1 ≤ (removeTape tapeId ts).length) ∧
    (((∀ t ∈ ts, t.id = tapeId → t.segments.length = 1) →
        removeSegmentFromTape tapeId segId ts = ts) ∧
     List.Forall₂ (fun t t' =>
        (t.id ≠ tapeId → t' = t) ∧
        (t.id = tapeId → 1 < t.segments.length →
          t' = { t with segments := t.segments.filter fun s => decide (s.id ≠ segId) }) ∧
        1 ≤ t'.segments.length) ts (removeSegmentFromTape tapeId segId ts)) := by
  refine ⟨⟨?_, ?_, ?_⟩, ?_, ?_⟩
  · intro hlen
    unfold removeTape
    rw [if_neg (by omega)]
  · intro hlen
    unfold removeTape
    rw [if_pos hlen]
    refine ⟨rfl, ?_, ?_⟩
    · intro t ht
      simpa using (List.mem_filter.mp ht).2
    · intro t ht hne
      exact List.mem_filter.mpr ⟨ht, by simpa using hne⟩
  · unfold removeTape
    split
    · have h4 : ts.length ≤ (ts.filter fun t => decide (t.id ≠ tapeId)).length + 1 :=
        length_le_filter_ne_succ ts (fun t => t.id) tapeId h1
      omega
    · exact h3
  · intro hone
    refine map_id_of_eq (fun t ht => ?_)
    by_cases hid : t.id = tapeId
    · rw [if_pos hid, if_neg (by have := hone t ht hid; omega)]
    · rw [if_neg hid]
  · unfold removeSegmentFromTape
    rw [List.forall₂_map_right_iff, List.forall₂_same]
    intro t ht
    refine ⟨fun hne => by rw [if_neg hne], fun hid hlen => by rw [if_pos hid, if_pos hlen], ?_⟩
    by_cases hid : t.id = tapeId
    · rw [if_pos hid]
      by_cases hlen : 1 < t.segments.length
      · rw [if_pos hlen]
        show 1 ≤ (t.segments.filter fun s => decide (s.id ≠ segId)).length
        have h4 : t.segments.length ≤
            (t.segments.filter fun s => decide (s.id ≠ segId)).length + 1 :=
          length_le_filter_ne_succ t.segments (fun s => s.id) segId (h2 t ht).2
        omega
      · rw [if_neg hlen]
        exact (h2 t ht).1
    · rw [if_neg hid]
      exact (h2 t ht).1

/-- A compact concrete state with two tapes of two segments each,
used to instantiate the hypothesis-carrying theorems. -/
def wSeg (i : ℤ) (b : Bool) : Segment :=
  { id := i, name := "Сегмент " ++ toString i, enabled := b, power := 50, temperature := 2,
    targetTemp := 5, status := if b then SegStatus.normal else SegStatus.off,
    sensorId := "", sensors := [] }

/-- First witness tape: enabled, segments 1 and 2. -/
def wTape1 : Tape :=
  { id := 1, name := "Лента 1", coordinates := "", contractNumber := "", length := "24",
    width := "50", segments := [wSeg 1 true, wSeg 2 true], enabled := true }

/-- Second witness tape: enabled, segments 3 and 4 (4 disabled). -/
def wTape2 : Tape :=
  { id := 2, name := "Лента 2", coordinates := "", contractNumber := "", length := "24",
    width := "50", segments := [wSeg 3 true, wSeg 4 false], enabled := true }

/-- Witness for C4 at the concrete two-tape state. -/
theorem C4_nonempty_guards_witness :
    (([wTape1, wTape2].map fun t => t.id).Nodup ∧
     (∀ t ∈ [wTape1, wTape2], 1 ≤ t.segments.length ∧ (t.segments.map fun s => s.id).Nodup) ∧
     1 ≤ ([wTape1, wTape2] : List Tape).length) ∧
    ((([wTape1, wTape2] : List Tape).length = 1 → removeTape 1 [wTape1, wTape2] = [wTape1, wTape2]) ∧
     (1 < ([wTape1, wTape2] : List Tape).length →
        removeTape 1 [wTape1, wTape2] = [wTape1, wTape2].filter (fun t => decide (t.id ≠ 1)) ∧
        (∀ t ∈ removeTape 1 [wTape1, wTape2], t.id ≠ 1) ∧
        (∀ t ∈ [wTape1, wTape2], t.id ≠ 1 → t ∈ removeTape 1 [wTape1, wTape2])) ∧
     1 ≤ (removeTape 1 [wTape1, wTape2]).length) ∧
    (((∀ t ∈ [wTape1, wTape2], t.id = 1 → t.segments.length = 1) →
        removeSegmentFromTape 1 2 [wTape1, wTape2] = [wTape1, wTape2]) ∧
     List.Forall₂ (fun t t' =>
        (t.id ≠ 1 → t' = t) ∧
        (t.id = 1 → 1 < t.segments.length →
          t' = { t with segments := t.segments.filter fun s => decide (s.id ≠ 2) }) ∧
        1 ≤ t'.segments.length) [wTape1, wTape2] (removeSegmentFromTape 1 2 [wTape1, wTape2])) :=
  ⟨⟨by decide, by decide, by decide⟩,
   C4_nonempty_guards [wTape1, wTape2] 1 2 (by decide) (by decide) (by decide)⟩

theorem createSegment_id (id : ℤ) (b : Bool) (e : Env) : (createSegment id b e).1.id = id := by
  cases b <;> rfl

theorem createSegment_enabled (id : ℤ) (b : Bool) (e : Env) :
    (createSegment id b e).1.enabled = b := by
  cases b <;> rfl

theorem createTape_seg_ids (id st : ℤ) (n : ℕ) (e : Env) :
    (createTape id st n e).1.segments.map (fun s => s.id) =
      (List.range n).map (fun (i : ℕ) => st + (i : ℤ)) :=
  @mapRS_map_fst ℕ Segment
    (fun (i : ℕ) e =>
      createSegment (st + (i : ℤ)) (decide ((i : ℤ) < ⌈(n : ℚ) * (7 / 10)⌉)) e)
    ℤ (fun s => s.id) (fun (i : ℕ) => st + (i : ℤ))
    (fun i e => createSegment_id (st + (i : ℤ)) _ e) (List.range n) e

theorem createTape_seg_enabled (id st : ℤ) (n : ℕ) (e : Env) :
    (createTape id st n e).1.segments.map (fun s => s.enabled) =
      (List.range n).map (fun (i : ℕ) => decide ((i : ℤ) < ⌈(n : ℚ) * (7 / 10)⌉)) :=
  @mapRS_map_fst ℕ Segment
    (fun (i : ℕ) e =>
      createSegment (st + (i : ℤ)) (decide ((i : ℤ) < ⌈(n : ℚ) * (7 / 10)⌉)) e)
    Bool (fun s => s.enabled) (fun (i : ℕ) => decide ((i : ℤ) < ⌈(n : ℚ) * (7 / 10)⌉))
    (fun i e => createSegment_enabled (st + (i : ℤ)) _ e) (List.range n) e

/--
C3: `addTape` appends exactly one tape whose id is
`max(existing tape ids) + 1` (1 when there are no tapes), holding exactly
4 segments with consecutive ids starting at
`max(all existing segment ids) + 1` (1 when there are none), the first
`ceil(0.7 * 4) = 3` of them enabled and the last disabled.
-/
theorem C3_addTape_allocates (ts : List Tape) (e : Env) (h : ∀ t ∈ ts, 0 ≤ t.id) :
    ∃ nt : Tape,
      (addTape ts e).1 = ts ++ [nt] ∧
      nt.id = listMaxD (ts.map fun t => t.id) 0 + 1 ∧
      nt.segments.map (fun s => s.id) =
        [getMaxSegId ts + 1, getMaxSegId ts + 2, getMaxSegId ts + 3, getMaxSegId ts + 4] ∧
      nt.segments.map (fun s => s.enabled) = [true, true, true, false] ∧
      getMaxSegId ts = listMaxD ((allSegments ts).map fun s => s.id) 0 := by
  refine ⟨(createTape ((ts.foldl (fun m t => max m t.id) 0) + 1) (getMaxSegId ts + 1) 4 e).1,
    rfl, ?_, ?_, ?_, getMaxSegId_eq_listMaxD ts⟩
  · show (ts.foldl (fun m t => max m t.id) 0) + 1 = listMaxD (ts.map fun t => t.id) 0 + 1
    have hfold : ts.foldl (fun m t => max m t.id) 0 = (ts.map fun t => t.id).foldl max 0 := by
      rw [List.foldl_map]
    rw [hfold, foldl_max_zero_eq_listMaxD _ (fun x hx => by
      obtain ⟨t, ht, rfl⟩ := List.mem_map.mp hx
      exact h t ht)]
  · rw [createTape_seg_ids]
    show (List.range 4).map (fun (i : ℕ) => getMaxSegId ts + 1 + (i : ℤ)) = _
    simp [List.range_succ]
    omega
  · rw [createTape_seg_enabled]
    have hceil : ⌈((4 : ℕ) : ℚ) * (7 / 10)⌉ = 3 := by
      rw [Int.ceil_eq_iff]
      constructor <;> norm_num
    rw [hceil]
    decide

/-- Witness for C3 at the concrete two-tape state (tape ids 1 and 2,
segment ids 1–4): the appended tape gets id 3 and segments 5–8. -/
theorem C3_addTape_allocates_witness :
    (∀ t ∈ [wTape1, wTape2], 0 ≤ t.id) ∧
    (∃ nt : Tape,
      (addTape [wTape1, wTape2] (Env.mk (fun _ => 0) "")).1 = [wTape1, wTape2] ++ [nt] ∧
      nt.id = listMaxD ([wTape1, wTape2].map fun t => t.id) 0 + 1 ∧
      nt.segments.map (fun s => s.id) =
        [getMaxSegId [wTape1, wTape2] + 1, getMaxSegId [wTape1, wTape2] + 2,
         getMaxSegId [wTape1, wTape2] + 3, getMaxSegId [wTape1, wTape2] + 4] ∧
      nt.segments.map (fun s => s.enabled) = [true, true, true, false] ∧
      getMaxSegId [wTape1, wTape2] =
        listMaxD ((allSegments [wTape1, wTape2]).map fun s => s.id) 0) :=
  ⟨by decide, C3_addTape_allocates [wTape1, wTape2] (Env.mk (fun _ => 0) "") (by decide)⟩

/-- All tape ids of a state. -/
def tapeIds (ts : List Tape) : List ℤ :=
  ts.map fun t => t.id

/-- All segment ids of a state, across all tapes. -/
def segIds (ts : List Tape) : List ℤ :=
  (allSegments ts).map fun s => s.id

/-- The uniqueness invariant: no two tapes share an id and no two segments
anywhere share an id. -/
def sysNodup (ts : List Tape) : Prop :=
  (tapeIds ts).Nodup ∧ (segIds ts).Nodup

/-- The id-allocating commands of the claim. -/
inductive Cmd where
  | addT
  | addSeg (tid : ℤ)

/-- Apply one allocating command. -/
def applyCmd : Cmd → List Tape → Env → List Tape × Env
  | Cmd.addT, ts, e => addTape ts e
  | Cmd.addSeg tid, ts, e => addSegmentToTape tid ts e

/-- Apply a command sequence left to right. -/
def applyCmds : List Cmd → List Tape → Env → List Tape × Env
  | [], ts, e => (ts, e)
  | c :: cs, ts, e => applyCmds cs (applyCmd c ts e).1 (applyCmd c ts e).2

/-- Every id of `new` either already occurs in `old` or is strictly
greater than all ids of its kind in `old`. -/
def idsFresh (old new : List Tape) : Prop :=
  (∀ i ∈ tapeIds new, i ∈ tapeIds old ∨ ∀ j ∈ tapeIds old, j < i) ∧
  (∀ i ∈ segIds new, i ∈ segIds old ∨ ∀ j ∈ segIds old, j < i)

theorem tapeIds_append (l₁ l₂ : List Tape) : tapeIds (l₁ ++ l₂) = tapeIds l₁ ++ tapeIds l₂ :=
  List.map_append _ l₁ l₂

theorem segIds_append (l₁ l₂ : List Tape) : segIds (l₁ ++ l₂) = segIds l₁ ++ segIds l₂ := by
  unfold segIds allSegments
  rw [List.flatMap_append, List.map_append]

theorem mem_tapeIds_le_alloc (ts : List Tape) :
    ∀ j ∈ tapeIds ts, j ≤ ts.foldl (fun m t => max m t.id) 0 := by
  intro j hj
  have hfold : ts.foldl (fun m t => max m t.id) 0 = (tapeIds ts).foldl max 0 := by
    unfold tapeIds
    rw [List.foldl_map]
  rw [hfold]
  exact mem_le_foldl_max _ 0 j hj

theorem mem_segIds_le_max (ts : List Tape) : ∀ j ∈ segIds ts, j ≤ getMaxSegId ts := by
  intro j hj
  obtain ⟨s, hs, rfl⟩ := List.mem_map.mp hj
  exact seg_le_getMaxSegId ts s hs

theorem addTape_tapeIds (ts : List Tape) (e : Env) :
    tapeIds (addTape ts e).1 = tapeIds ts ++ [ts.foldl (fun m t => max m t.id) 0 + 1] := by
  rw [show (addTape ts e).1 = ts ++
      [(createTape ((ts.foldl (fun m t => max m t.id) 0) + 1) (getMaxSegId ts + 1) 4 e).1]
    from rfl, tapeIds_append]
  rfl

theorem addTape_segIds (ts : List Tape) (e : Env) :
    segIds (addTape ts e).1 = segIds ts ++
      [getMaxSegId ts + 1, getMaxSegId ts + 2, getMaxSegId ts + 3, getMaxSegId ts + 4] := by
  rw [show (addTape ts e).1 = ts ++
      [(createTape ((ts.foldl (fun m t => max m t.id) 0) + 1) (getMaxSegId ts + 1) 4 e).1]
    from rfl, segIds_append]
  congr 1
  show ((createTape ((ts.foldl (fun (m : ℤ) (t : Tape) => max m t.id) 0) + 1)
      (getMaxSegId ts + 1) 4 e).1.segments ++ []).map (fun (s : Segment) => s.id) = _
  rw [List.append_nil, createTape_seg_ids]
  simp [List.range_succ]
  omega

theorem addSegStep_match (tid m : ℤ) (t : Tape) (e : Env) (hid : t.id = tid) :
    (addSegStep tid m t e).1 =
      { t with segments := t.segments ++ [(createSegment (m + 1) false e).1] } ∧
    (addSegStep tid m t e).2 = (createSegment (m + 1) false e).2 := by
  unfold addSegStep
  rw [if_pos hid]
  exact ⟨rfl, rfl⟩

theorem addSegStep_miss (tid m : ℤ) (t : Tape) (e : Env) (hid : t.id ≠ tid) :
    addSegStep tid m t e = (t, e) := by
  unfold addSegStep
  rw [if_neg hid]

theorem tapeIds_cons (u : Tape) (us : List Tape) : tapeIds (u :: us) = u.id :: tapeIds us :=
  rfl

theorem segIds_cons (u : Tape) (us : List Tape) :
    segIds (u :: us) = (u.segments.map fun (s : Segment) => s.id) ++ segIds us := by
  unfold segIds allSegments
  rw [List.flatMap_cons, List.map_append]

theorem mapRS_addSegStep_ids (tid m : ℤ) :
    ∀ (ts : List Tape) (e : Env), (tapeIds ts).Nodup →
      tapeIds (mapRS (addSegStep tid m) ts e).1 = tapeIds ts ∧
      (segIds (mapRS (addSegStep tid m) ts e).1 = segIds ts ∨
       (segIds (mapRS (addSegStep tid m) ts e).1).Perm (segIds ts ++ [m + 1])) := by
  intro ts
  induction ts with
  | nil => exact fun e _ => ⟨rfl, Or.inl rfl⟩
  | cons t ts ih =>
    intro e h
    rw [tapeIds_cons, List.nodup_cons] at h
    by_cases hid : t.id = tid
    · have hrest : ∀ u ∈ ts, u.id ≠ tid := by
        intro u hu hc
        apply h.1
        have huid : t.id = u.id := by rw [hid, hc]
        rw [huid]
        exact List.mem_map_of_mem _ hu
      obtain ⟨hfst, _⟩ := addSegStep_match tid m t e hid
      have hstop : mapRS (addSegStep tid m) ts (addSegStep tid m t e).2 =
          (ts, (addSegStep tid m t e).2) :=
        mapRS_eq_of_id ts _ _ (fun u hu e => addSegStep_miss tid m u e (hrest u hu))
      have hres : (mapRS (addSegStep tid m) (t :: ts) e).1 =
          { t with segments := t.segments ++ [(createSegment (m + 1) false e).1] } :: ts := by
        rw [mapRS_cons, hstop, hfst]
      rw [hres]
      refine ⟨rfl, Or.inr ?_⟩
      rw [segIds_cons, segIds_cons]
      show ((t.segments ++ [(createSegment (m + 1) false e).1]).map
          (fun (s : Segment) => s.id) ++ segIds ts).Perm _
      rw [List.map_append,
        show (([(createSegment (m + 1) false e).1]).map fun (s : Segment) => s.id) =
          [m + 1] from by simp [createSegment_id],
        List.append_assoc]
      have hcomm : List.Perm
          ((t.segments.map fun (s : Segment) => s.id) ++ ([m + 1] ++ segIds ts))
          ((t.segments.map fun (s : Segment) => s.id) ++ (segIds ts ++ [m + 1])) :=
        List.Perm.append_left _ List.perm_append_comm
      exact (List.append_assoc (t.segments.map fun (s : Segment) => s.id)
        (segIds ts) [m + 1]).symm ▸ hcomm
    · have hmiss := addSegStep_miss tid m t e hid
      have hres : (mapRS (addSegStep tid m) (t :: ts) e).1 =
          t :: (mapRS (addSegStep tid m) ts e).1 := by
        rw [mapRS_cons, hmiss]
      obtain ⟨ih1, ih2⟩ := ih e h.2
      rw [hres]
      constructor
      · rw [tapeIds_cons, tapeIds_cons, ih1]
      · rcases ih2 with heq | hperm
        · left
          rw [segIds_cons, segIds_cons, heq]
        · right
          rw [segIds_cons, segIds_cons]
          have hstep : List.Perm
              ((t.segments.map fun (s : Segment) => s.id) ++
                segIds (mapRS (addSegStep tid m) ts e).1)
              ((t.segments.map fun (s : Segment) => s.id) ++ (segIds ts ++ [m + 1])) :=
            List.Perm.append_left _ hperm
          exact (List.append_assoc (t.segments.map fun (s : Segment) => s.id)
            (segIds ts) [m + 1]).symm ▸ hstep

theorem addSegmentToTape_ids (tid : ℤ) (ts : List Tape) (e : Env)
    (h : (tapeIds ts).Nodup) :
    tapeIds (addSegmentToTape tid ts e).1 = tapeIds ts ∧
    (segIds (addSegmentToTape tid ts e).1 = segIds ts ∨
     (segIds (addSegmentToTape tid ts e).1).Perm (segIds ts ++ [getMaxSegId ts + 1])) :=
  mapRS_addSegStep_ids tid (getMaxSegId ts) ts e h

theorem applyCmd_sysNodup (c : Cmd) (ts : List Tape) (e : Env) (h : sysNodup ts) :
    sysNodup (applyCmd c ts e).1 := by
  obtain ⟨h1, h2⟩ := h
  cases c with
  | addT =>
    constructor
    · rw [show applyCmd Cmd.addT ts e = addTape ts e from rfl, addTape_tapeIds,
        List.nodup_append]
      refine ⟨h1, List.nodup_singleton _, ?_⟩
      intro x hx hx2
      have hle := mem_tapeIds_le_alloc ts x hx
      rw [List.mem_singleton] at hx2
      omega
    · rw [show applyCmd Cmd.addT ts e = addTape ts e from rfl, addTape_segIds,
        List.nodup_append]
      refine ⟨h2, ?_, ?_⟩
      · simp only [List.nodup_cons, List.mem_cons, List.mem_singleton,
          List.not_mem_nil, or_false, List.nodup_nil, and_true, List.nodup_singleton]
        exact ⟨by omega, by omega, by omega, not_false⟩
      · intro x hx hx2
        have hle := mem_segIds_le_max ts x hx
        simp only [List.mem_cons, List.mem_singleton, List.not_mem_nil, or_false] at hx2
        omega
  | addSeg tid =>
    obtain ⟨ht, hs⟩ := addSegmentToTape_ids tid ts e h1
    constructor
    · rw [show applyCmd (Cmd.addSeg tid) ts e = addSegmentToTape tid ts e from rfl, ht]
      exact h1
    · rw [show applyCmd (Cmd.addSeg tid) ts e = addSegmentToTape tid ts e from rfl]
      rcases hs with heq | hperm
      · rw [heq]
        exact h2
      · refine hperm.symm.nodup ?_
        rw [List.nodup_append]
        refine ⟨h2, List.nodup_singleton _, ?_⟩
        intro x hx hx2
        have hle := mem_segIds_le_max ts x hx
        rw [List.mem_singleton] at hx2
        omega

theorem applyCmd_fresh (c : Cmd) (ts : List Tape) (e : Env) (h : sysNodup ts) :
    idsFresh ts (applyCmd c ts e).1 := by
  cases c with
  | addT =>
    constructor
    · intro i hi
      rw [show applyCmd Cmd.addT ts e = addTape ts e from rfl, addTape_tapeIds] at hi
      rcases List.mem_append.mp hi with hmem | hnew
      · exact Or.inl hmem
      · rw [List.mem_singleton] at hnew
        refine Or.inr (fun j hj => ?_)
        have := mem_tapeIds_le_alloc ts j hj
        omega
    · intro i hi
      rw [show applyCmd Cmd.addT ts e = addTape ts e from rfl, addTape_segIds] at hi
      rcases List.mem_append.mp hi with hmem | hnew
      · exact Or.inl hmem
      · simp only [List.mem_cons, List.mem_singleton, List.not_mem_nil, or_false] at hnew
        refine Or.inr (fun j hj => ?_)
        have := mem_segIds_le_max ts j hj
        omega
  | addSeg tid =>
    obtain ⟨ht, hs⟩ := addSegmentToTape_ids tid ts e h.1
    constructor
    · intro i hi
      rw [show applyCmd (Cmd.addSeg tid) ts e = addSegmentToTape tid ts e from rfl, ht] at hi
      exact Or.inl hi
    · intro i hi
      rw [show applyCmd (Cmd.addSeg tid) ts e = addSegmentToTape tid ts e from rfl] at hi
      rcases hs with heq | hperm
      · rw [heq] at hi
        exact Or.inl hi
      · rcases List.mem_append.mp (hperm.mem_iff.mp hi) with hmem | hnew
        · exact Or.inl hmem
        · rw [List.mem_singleton] at hnew
          refine Or.inr (fun j hj => ?_)
          have := mem_segIds_le_max ts j hj
          omega

theorem applyCmds_sysNodup :
    ∀ (cmds : List Cmd) (ts : List Tape) (e : Env), sysNodup ts →
      sysNodup (applyCmds cmds ts e).1 := by
  intro cmds
  induction cmds with
  | nil => exact fun ts e h => h
  | cons c cs ih =>
    intro ts e h
    exact ih _ _ (applyCmd_sysNodup c ts e h)

/--
C5: from a state with unique tape and segment ids, any finite sequence of
`addTape`/`addSegmentToTape` calls preserves uniqueness of both kinds of
ids, and at every point of the sequence the next call only introduces ids
that are strictly greater than every id of their kind already present.
-/
theorem C5_id_uniqueness_and_monotonicity (ts : List Tape) (e : Env) (h : sysNodup ts) :
    (∀ cmds : List Cmd, sysNodup (applyCmds cmds ts e).1) ∧
    (∀ cmds : List Cmd, ∀ c : Cmd,
      idsFresh (applyCmds cmds ts e).1
        (applyCmd c (applyCmds cmds ts e).1 (applyCmds cmds ts e).2).1) :=
  ⟨fun cmds => applyCmds_sysNodup cmds ts e h,
   fun cmds c => applyCmd_fresh c _ _ (applyCmds_sysNodup cmds ts e h)⟩

/-- Witness for C5 at the concrete two-tape state. -/
theorem C5_id_uniqueness_and_monotonicity_witness :
    sysNodup [wTape1, wTape2] ∧
    ((∀ cmds : List Cmd, sysNodup (applyCmds cmds [wTape1, wTape2] (Env.mk (fun _ => 0) "")).1) ∧
     (∀ cmds : List Cmd, ∀ c : Cmd,
       idsFresh (applyCmds cmds [wTape1, wTape2] (Env.mk (fun _ => 0) "")).1
         (applyCmd c (applyCmds cmds [wTape1, wTape2] (Env.mk (fun _ => 0) "")).1
           (applyCmds cmds [wTape1, wTape2] (Env.mk (fun _ => 0) "")).2).1)) :=
  ⟨by constructor <;> decide,
   C5_id_uniqueness_and_monotonicity [wTape1, wTape2] (Env.mk (fun _ => 0) "")
     (by constructor <;> decide)⟩

/-- The segment invariant of the claim: `status = off` iff `enabled = false`. -/
def segOk (s : Segment) : Prop :=
  s.enabled = false ↔ s.status = SegStatus.off

/-- The invariant over a whole state. -/
def SysOk (ts : List Tape) : Prop :=
  ∀ t ∈ ts, ∀ s ∈ t.segments, segOk s

instance (s : Segment) : Decidable (segOk s) := by
  unfold segOk
  infer_instance

instance (ts : List Tape) : Decidable (SysOk ts) := by
  unfold SysOk
  infer_instance

/-- All state-mutating operations of the panel. -/
inductive Op where
  | toggleT (tid : ℤ)
  | updateF (tid : ℤ) (f : TapeField) (v : String)
  | addT
  | removeT (tid : ℤ)
  | addSeg (tid : ℤ)
  | removeSeg (tid sid : ℤ)
  | toggleS (tid sid : ℤ)
  | setPower (tid sid : ℤ) (p : ℚ)
  | setTarget (tid sid : ℤ) (v : ℚ)
  | enableAll (tid : ℤ)
  | disableAll (tid : ℤ)
  | tick

/-- Apply one operation (the simulation tick and the segment/tape creators
consume randomness, the rest are pure). -/
def applyOp : Op → List Tape → Env → List Tape × Env
  | Op.toggleT tid, ts, e => (toggleTape tid ts, e)
  | Op.updateF tid f v, ts, e => (updateTapeField tid f v ts, e)
  | Op.addT, ts, e => addTape ts e
  | Op.removeT tid, ts, e => (removeTape tid ts, e)
  | Op.addSeg tid, ts, e => addSegmentToTape tid ts e
  | Op.removeSeg tid sid, ts, e => (removeSegmentFromTape tid sid ts, e)
  | Op.toggleS tid sid, ts, e => (toggleSegment tid sid ts, e)
  | Op.setPower tid sid p, ts, e => (setSegPower tid sid p ts, e)
  | Op.setTarget tid sid v, ts, e => (setSegTargetTemp tid sid v ts, e)
  | Op.enableAll tid, ts, e => (enableAllSegments tid ts, e)
  | Op.disableAll tid, ts, e => (disableAllSegments tid ts, e)
  | Op.tick, ts, e => simTick ts e

/-- Apply an operation sequence left to right. -/
def applyOps : List Op → List Tape → Env → List Tape × Env
  | [], ts, e => (ts, e)
  | o :: os, ts, e => applyOps os (applyOp o ts e).1 (applyOp o ts e).2

theorem forall2_mem_right {α β : Type} {R : α → β → Prop} :
    ∀ {l₁ : List α} {l₂ : List β}, List.Forall₂ R l₁ l₂ → ∀ y ∈ l₂, ∃ x ∈ l₁, R x y := by
  intro l₁ l₂ h
  induction h with
  | nil => intro y hy; simp at hy
  | cons hr hrest ih =>
    intro y hy
    rcases List.mem_cons.mp hy with rfl | hy2
    · exact ⟨_, by simp, hr⟩
    · obtain ⟨x, hx, hxy⟩ := ih y hy2
      exact ⟨x, List.mem_cons_of_mem _ hx, hxy⟩

theorem createSegment_status_off_iff (id : ℤ) (b : Bool) (e : Env) :
    ((createSegment id b e).1.status = SegStatus.off ↔ b = false) := by
  cases b with
  | false => simp [createSegment]
  | true =>
    simp only [createSegment]
    split
    · split <;> simp
    · simp_all

theorem tickSeg_enabled_status (t : Tape) (s : Segment) (e : Env) :
    (tickSeg t s e).1.enabled = s.enabled ∧ (tickSeg t s e).1.status = s.status := by
  unfold tickSeg
  split
  · exact ⟨rfl, rfl⟩
  · exact ⟨rfl, rfl⟩

theorem createSegment_segOk (id : ℤ) (b : Bool) (e : Env) : segOk (createSegment id b e).1 := by
  unfold segOk
  rw [createSegment_enabled]
  exact Iff.trans (by constructor <;> exact fun h => h)
    (createSegment_status_off_iff id b e).symm

theorem createTape_segOk (id st : ℤ) (n : ℕ) (e : Env) :
    ∀ s ∈ (createTape id st n e).1.segments, segOk s :=
  mapRS_mem_prop (fun _i e => createSegment_segOk _ _ e) (List.range n) e

theorem SysOk_createInitialTapes (e : Env) : SysOk (createInitialTapes e).1 := by
  intro t ht s hs
  have hval : (createInitialTapes e).1 =
      [{ (createTape 1 1 6 e).1 with
          coordinates := "55.7558, 37.6173", contractNumber := "№2024-001" },
       { (createTape 2 7 6 (createTape 1 1 6 e).2).1 with
          coordinates := "55.7600, 37.6200", contractNumber := "№2024-002" }] := rfl
  rw [hval] at ht
  rcases List.mem_cons.mp ht with rfl | ht2
  · exact createTape_segOk 1 1 6 e s hs
  · rcases List.mem_cons.mp ht2 with rfl | ht3
    · exact createTape_segOk 2 7 6 (createTape 1 1 6 e).2 s hs
    · simp at ht3

theorem applyOp_SysOk (o : Op) (ts : List Tape) (e : Env) (h : SysOk ts) :
    SysOk (applyOp o ts e).1 := by
  cases o with
  | toggleT tid =>
    intro t' ht' s hs
    obtain ⟨t, ht, rfl⟩ := List.mem_map.mp ht'
    by_cases hid : t.id = tid
    · rw [if_pos hid] at hs
      exact h t ht s hs
    · rw [if_neg hid] at hs
      exact h t ht s hs
  | updateF tid f v =>
    intro t' ht' s hs
    obtain ⟨t, ht, rfl⟩ := List.mem_map.mp ht'
    by_cases hid : t.id = tid
    · rw [if_pos hid] at hs
      cases f <;> exact h t ht s hs
    · rw [if_neg hid] at hs
      exact h t ht s hs
  | addT =>
    intro t' ht' s hs
    rw [show (applyOp Op.addT ts e).1 = ts ++
        [(createTape ((ts.foldl (fun m t => max m t.id) 0) + 1) (getMaxSegId ts + 1) 4 e).1]
      from rfl] at ht'
    rcases List.mem_append.mp ht' with hmem | hnew
    · exact h t' hmem s hs
    · rw [List.mem_singleton] at hnew
      subst hnew
      exact createTape_segOk _ _ 4 e s hs
  | removeT tid =>
    intro t' ht' s hs
    have : t' ∈ ts := by
      revert ht'
      show t' ∈ removeTape tid ts → t' ∈ ts
      unfold removeTape
      split
      · exact fun hm => List.mem_of_mem_filter hm
      · exact fun hm => hm
    exact h t' this s hs
  | addSeg tid =>
    intro t' ht' s hs
    have hall : List.Forall₂
        (fun t t' => (∀ s ∈ t.segments, segOk s) → ∀ s ∈ t'.segments, segOk s)
        ts (mapRS (addSegStep tid (getMaxSegId ts)) ts e).1 := by
      refine (mapRS_forall2 _ (fun _ => True) (fun _ => True) ?_ ts e
        (fun _ _ => trivial) trivial).1
      intro t _ e0 _
      refine ⟨fun hsOk s hs => ?_, trivial⟩
      by_cases hid : t.id = tid
      · rw [(addSegStep_match tid (getMaxSegId ts) t e0 hid).1] at hs
        rcases List.mem_append.mp hs with hm | hm
        · exact hsOk s hm
        · rw [List.mem_singleton] at hm
          subst hm
          exact createSegment_segOk _ false _
      · rw [addSegStep_miss tid (getMaxSegId ts) t e0 hid] at hs
        exact hsOk s hs
    obtain ⟨t, ht, himp⟩ := forall2_mem_right hall t' ht'
    exact himp (h t ht) s hs
  | removeSeg tid sid =>
    intro t' ht' s hs
    obtain ⟨t, ht, rfl⟩ := List.mem_map.mp ht'
    by_cases hid : t.id = tid
    · rw [if_pos hid] at hs
      refine h t ht s ?_
      revert hs
      show s ∈ (if 1 < t.segments.length then
          t.segments.filter fun s => decide (s.id ≠ sid) else t.segments) → s ∈ t.segments
      split
      · exact fun hm => List.mem_of_mem_filter hm
      · exact fun hm => hm
    · rw [if_neg hid] at hs
      exact h t ht s hs
  | toggleS tid sid =>
    intro t' ht' s hs
    obtain ⟨t, ht, rfl⟩ := List.mem_map.mp ht'
    by_cases hid : t.id = tid
    · rw [if_pos hid] at hs
      obtain ⟨s0, hs0, rfl⟩ := List.mem_map.mp hs
      by_cases hsid : s0.id = sid
      · rw [if_pos hsid]
        unfold segOk
        cases hb : s0.enabled <;> simp
      · rw [if_neg hsid]
        exact h t ht s0 hs0
    · rw [if_neg hid] at hs
      exact h t ht s hs
  | setPower tid sid p =>
    intro t' ht' s hs
    obtain ⟨t, ht, rfl⟩ := List.mem_map.mp ht'
    by_cases hid : t.id = tid
    · rw [if_pos hid] at hs
      obtain ⟨s0, hs0, rfl⟩ := List.mem_map.mp hs
      by_cases hsid : s0.id = sid
      · rw [if_pos hsid]
        exact h t ht s0 hs0
      · rw [if_neg hsid]
        exact h t ht s0 hs0
    · rw [if_neg hid] at hs
      exact h t ht s hs
  | setTarget tid sid v =>
    intro t' ht' s hs
    obtain ⟨t, ht, rfl⟩ := List.mem_map.mp ht'
    by_cases hid : t.id = tid
    · rw [if_pos hid] at hs
      obtain ⟨s0, hs0, rfl⟩ := List.mem_map.mp hs
      by_cases hsid : s0.id = sid
      · rw [if_pos hsid]
        exact h t ht s0 hs0
      · rw [if_neg hsid]
        exact h t ht s0 hs0
    · rw [if_neg hid] at hs
      exact h t ht s hs
  | enableAll tid =>
    intro t' ht' s hs
    obtain ⟨t, ht, rfl⟩ := List.mem_map.mp ht'
    by_cases hid : t.id = tid
    · rw [if_pos hid] at hs
      obtain ⟨s0, hs0, rfl⟩ := List.mem_map.mp hs
      unfold segOk
      simp
    · rw [if_neg hid] at hs
      exact h t ht s hs
  | disableAll tid =>
    intro t' ht' s hs
    obtain ⟨t, ht, rfl⟩ := List.mem_map.mp ht'
    by_cases hid : t.id = tid
    · rw [if_pos hid] at hs
      obtain ⟨s0, hs0, rfl⟩ := List.mem_map.mp hs
      unfold segOk
      simp
    · rw [if_neg hid] at hs
      exact h t ht s hs
  | tick =>
    intro t' ht' s hs
    have hall : List.Forall₂
        (fun t t' => (∀ s ∈ t.segments, segOk s) → ∀ s ∈ t'.segments, segOk s)
        ts (mapRS tickTape ts e).1 := by
      refine (mapRS_forall2 _ (fun _ => True) (fun _ => True) ?_ ts e
        (fun _ _ => trivial) trivial).1
      intro t _ e0 _
      refine ⟨fun hsOk s hs => ?_, trivial⟩
      have hinner : List.Forall₂ (fun s s' => segOk s → segOk s')
          t.segments (mapRS (tickSeg t) t.segments e0).1 := by
        refine (mapRS_forall2 _ (fun _ => True) (fun _ => True) ?_ t.segments e0
          (fun _ _ => trivial) trivial).1
        intro s0 _ e1 _
        refine ⟨fun hOk => ?_, trivial⟩
        have hpres := tickSeg_enabled_status t s0 e1
        unfold segOk at hOk ⊢
        rw [hpres.1, hpres.2]
        exact hOk
      obtain ⟨s1, hs1, himp⟩ := forall2_mem_right hinner s hs
      exact himp (hsOk s1 hs1)
    obtain ⟨t, ht, himp⟩ := forall2_mem_right hall t' ht'
    exact himp (h t ht) s hs

theorem applyOps_SysOk :
    ∀ (ops : List Op) (ts : List Tape) (e : Env), SysOk ts → SysOk (applyOps ops ts e).1 := by
  intro ops
  induction ops with
  | nil => exact fun ts e h => h
  | cons o os ih =>
    intro ts e h
    exact ih _ _ (applyOp_SysOk o ts e h)

/--
C6: the invariant `status = off ↔ enabled = false` holds for the freshly
generated default system and is preserved by every panel operation
(toggles, field setters, bulk enable/disable, structure edits and the
simulation tick).
-/
theorem C6_status_off_iff_disabled (e : Env) (ts : List Tape) (e2 : Env) (h : SysOk ts) :
    SysOk (createInitialTapes e).1 ∧
    ∀ ops : List Op, SysOk (applyOps ops ts e2).1 :=
  ⟨SysOk_createInitialTapes e, fun ops => applyOps_SysOk ops ts e2 h⟩

/-- Witness for C6 at the concrete two-tape state. -/
theorem C6_status_off_iff_disabled_witness :
    SysOk [wTape1, wTape2] ∧
    (SysOk (createInitialTapes (Env.mk (fun _ => 0) "")).1 ∧
     ∀ ops : List Op,
       SysOk (applyOps ops [wTape1, wTape2] (Env.mk (fun _ => 0) "")).1) :=
  ⟨by decide,
   C6_status_off_iff_disabled (Env.mk (fun _ => 0) "") [wTape1, wTape2]
     (Env.mk (fun _ => 0) "") (by decide)⟩

theorem jsRound_drift_bound (temp r : ℚ) (h0 : 0 ≤ r) (h1 : r < 1)
    (ht : ∃ k : ℤ, temp = (k : ℚ) / 10) :
    |(((jsRound ((temp + (r - 1 / 2) * (3 / 2)) * 10) : ℤ) : ℚ) / 10) - temp| ≤ 3 / 4 := by
  obtain ⟨k, rfl⟩ := ht
  have hd1 : -(3 / 4) ≤ (r - 1 / 2) * (3 / 2) := by linarith
  have hd2 : (r - 1 / 2) * (3 / 2) < 3 / 4 := by linarith
  have harg : ((k : ℚ) / 10 + (r - 1 / 2) * (3 / 2)) * 10 =
      (k : ℚ) + ((r - 1 / 2) * (3 / 2) * 10) := by ring
  rw [show jsRound (((k : ℚ) / 10 + (r - 1 / 2) * (3 / 2)) * 10) =
      k + ⌊(r - 1 / 2) * (3 / 2) * 10 + 1 / 2⌋ from by
    unfold jsRound
    rw [harg, add_assoc, Int.floor_int_add]]
  have hm1 : (-7 : ℤ) ≤ ⌊(r - 1 / 2) * (3 / 2) * 10 + 1 / 2⌋ := by
    rw [Int.le_floor]
    push_cast
    linarith
  have hm2 : ⌊(r - 1 / 2) * (3 / 2) * 10 + 1 / 2⌋ < 8 := by
    rw [Int.floor_lt]
    push_cast
    linarith
  have hmq1 : ((-7 : ℤ) : ℚ) ≤ (⌊(r - 1 / 2) * (3 / 2) * 10 + 1 / 2⌋ : ℚ) :=
    Int.cast_le.mpr hm1
  have hmq2 : ((⌊(r - 1 / 2) * (3 / 2) * 10 + 1 / 2⌋ : ℤ) : ℚ) ≤ ((7 : ℤ) : ℚ) :=
    Int.cast_le.mpr (by omega)
  rw [abs_le]
  push_cast at hmq1 hmq2 ⊢
  constructor <;> [linarith; linarith]

/--
C2: one simulation tick moves every effective-enabled segment's
temperature by at most 0.75 in absolute value and leaves it an exact
multiple of 0.1, changes nothing else about such a segment, and returns
every segment that is disabled or sits on a disabled tape completely
unchanged — assuming a well-formed random stream and temperatures that
are multiples of 0.1 going in (as every state the panel produces has).
-/
theorem C2_simTick_bounded (ts : List Tape) (e : Env) (he : Env.Valid e)
    (ht : ∀ t ∈ ts, ∀ s ∈ t.segments, ∃ k : ℤ, s.temperature = (k : ℚ) / 10) :
    List.Forall₂ (fun t t' =>
      t' = { t with segments := t'.segments } ∧
      List.Forall₂ (fun s s' =>
        ((s.enabled && t.enabled) = true →
          s' = { s with temperature := s'.temperature } ∧
          |s'.temperature - s.temperature| ≤ 3 / 4 ∧
          ∃ k : ℤ, s'.temperature = (k : ℚ) / 10) ∧
        ((s.enabled && t.enabled) = false → s' = s)) t.segments t'.segments)
      ts (simTick ts e).1 := by
  refine (mapRS_forall2 _
    (fun t => ∀ s ∈ t.segments, ∃ k : ℤ, s.temperature = (k : ℚ) / 10)
    Env.Valid ?_ ts e ht he).1
  intro t hq e0 hv0
  have hstep : ∀ s0, (∃ k : ℤ, s0.temperature = (k : ℚ) / 10) → ∀ e1, Env.Valid e1 →
      (((s0.enabled && t.enabled) = true →
          (tickSeg t s0 e1).1 = { s0 with temperature := (tickSeg t s0 e1).1.temperature } ∧
          |(tickSeg t s0 e1).1.temperature - s0.temperature| ≤ 3 / 4 ∧
          ∃ k : ℤ, (tickSeg t s0 e1).1.temperature = (k : ℚ) / 10) ∧
        ((s0.enabled && t.enabled) = false → (tickSeg t s0 e1).1 = s0)) ∧
      Env.Valid (tickSeg t s0 e1).2 := by
    intro s0 hks e1 hv1
    by_cases hcond : (!s0.enabled || !t.enabled) = true
    · rw [show tickSeg t s0 e1 = (s0, e1) from by unfold tickSeg; rw [if_pos hcond]]
      refine ⟨⟨fun habs => ?_, fun _ => rfl⟩, hv1⟩
      cases hse : s0.enabled <;> cases hte : t.enabled <;> simp_all
    · have hrun : tickSeg t s0 e1 =
          ({ s0 with temperature :=
              ((jsRound ((s0.temperature + (e1.next.1 - 1 / 2) * (3 / 2)) * 10) : ℤ) : ℚ) / 10 },
            e1.next.2) := by
        unfold tickSeg
        rw [if_neg (by simp_all)]
      rw [hrun]
      refine ⟨⟨fun _ => ⟨rfl, ?_, ?_⟩, fun habs => ?_⟩, hv1.tail⟩
      · exact jsRound_drift_bound s0.temperature e1.next.1 (hv1 0).1 (hv1 0).2 hks
      · exact ⟨jsRound ((s0.temperature + (e1.next.1 - 1 / 2) * (3 / 2)) * 10), rfl⟩
      · cases hse : s0.enabled <;> cases hte : t.enabled <;> simp_all
  have hinner := mapRS_forall2
    (fun s s' => ((s.enabled && t.enabled) = true →
        s' = { s with temperature := s'.temperature } ∧
        |s'.temperature - s.temperature| ≤ 3 / 4 ∧
        ∃ k : ℤ, s'.temperature = (k : ℚ) / 10) ∧
      ((s.enabled && t.enabled) = false → s' = s))
    (fun s => ∃ k : ℤ, s.temperature = (k : ℚ) / 10)
    Env.Valid hstep t.segments e0 hq hv0
  exact ⟨⟨rfl, hinner.1⟩, hinner.2⟩

/-- Witness for C2 at the concrete two-tape state with the all-zeros
random stream. -/
theorem C2_simTick_bounded_witness :
    Env.Valid (Env.mk (fun _ => 0) "") ∧
    (∀ t ∈ [wTape1, wTape2], ∀ s ∈ t.segments, ∃ k : ℤ, s.temperature = (k : ℚ) / 10) ∧
    List.Forall₂ (fun t t' =>
      t' = { t with segments := t'.segments } ∧
      List.Forall₂ (fun s s' =>
        ((s.enabled && t.enabled) = true →
          s' = { s with temperature := s'.temperature } ∧
          |s'.temperature - s.temperature| ≤ 3 / 4 ∧
          ∃ k : ℤ, s'.temperature = (k : ℚ) / 10) ∧
        ((s.enabled && t.enabled) = false → s' = s)) t.segments t'.segments)
      [wTape1, wTape2] (simTick [wTape1, wTape2] (Env.mk (fun _ => 0) "")).1 := by
  have hval : Env.Valid (Env.mk (fun _ => 0) "") := fun n => ⟨le_refl 0, by norm_num⟩
  have htemp : ∀ t ∈ [wTape1, wTape2], ∀ s ∈ t.segments,
      ∃ k : ℤ, s.temperature = (k : ℚ) / 10 := by
    intro t htm s hsm
    refine ⟨20, ?_⟩
    rcases List.mem_cons.mp htm with rfl | htm2
    · rcases List.mem_cons.mp hsm with rfl | hsm2
      · show (2 : ℚ) = ((20 : ℤ) : ℚ) / 10
        norm_num
      · rcases List.mem_cons.mp hsm2 with rfl | hsm3
        · show (2 : ℚ) = ((20 : ℤ) : ℚ) / 10
          norm_num
        · simp at hsm3
    · rcases List.mem_cons.mp htm2 with rfl | htm3
      · rcases List.mem_cons.mp hsm with rfl | hsm2
        · show (2 : ℚ) = ((20 : ℤ) : ℚ) / 10
          norm_num
        · rcases List.mem_cons.mp hsm2 with rfl | hsm3
          · show (2 : ℚ) = ((20 : ℤ) : ℚ) / 10
            norm_num
          · simp at hsm3
      · simp at htm3
  exact ⟨hval, htemp, C2_simTick_bounded [wTape1, wTape2] (Env.mk (fun _ => 0) "") hval htemp⟩

/-- A concrete alert for the witnesses. -/
def wAlert : Alert :=
  { id := 1, timestamp := "13.02.2026 14:32", severity := "critical",
    message := "Перегрев сегмента 9", acknowledged := false }

/-- Witness for C10: id 99 addresses no tape, no segment of tape 1, and
no alert in the concrete state. -/
theorem C10_missing_id_noop_witness :
    ((∀ t ∈ [wTape1, wTape2], t.id ≠ 99) ∧
      (toggleTape 99 [wTape1, wTape2] = [wTape1, wTape2] ∧
       removeTape 99 [wTape1, wTape2] = [wTape1, wTape2] ∧
       (∀ f v, updateTapeField 99 f v [wTape1, wTape2] = [wTape1, wTape2]) ∧
       addSegmentToTape 99 [wTape1, wTape2] (Env.mk (fun _ => 0) "") =
         ([wTape1, wTape2], Env.mk (fun _ => 0) ""))) ∧
    ((∀ t ∈ [wTape1, wTape2], t.id = 1 → ∀ s ∈ t.segments, s.id ≠ 99) ∧
      (toggleSegment 1 99 [wTape1, wTape2] = [wTape1, wTape2] ∧
       (∀ p, setSegPower 1 99 p [wTape1, wTape2] = [wTape1, wTape2]) ∧
       (∀ v, setSegTargetTemp 1 99 v [wTape1, wTape2] = [wTape1, wTape2]) ∧
       removeSegmentFromTape 1 99 [wTape1, wTape2] = [wTape1, wTape2])) ∧
    ((∀ a ∈ [wAlert], a.id ≠ 99) ∧ acknowledgeAlert 99 [wAlert] = [wAlert]) :=
  ⟨⟨by decide,
    (C10_missing_id_noop [wTape1, wTape2] (Env.mk (fun _ => 0) "") 99 1 99 [wAlert] 99).1
      (by decide)⟩,
   ⟨by decide,
    (C10_missing_id_noop [wTape1, wTape2] (Env.mk (fun _ => 0) "") 99 1 99 [wAlert] 99).2.1
      (by decide)⟩,
   ⟨by decide,
    (C10_missing_id_noop [wTape1, wTape2] (Env.mk (fun _ => 0) "") 99 1 99 [wAlert] 99).2.2
      (by decide)⟩⟩

theorem createSensors_length (segId : ℤ) (count : ℕ) (e : Env) :
    ((createSensors segId count e).1).length = count := by
  unfold createSensors
  rw [mapRS_length, List.length_range]

theorem migrateSegments_all_some (segs : List BlobSegment) (e : Env) :
    ∀ s' ∈ (migrateSegments segs e).1, s'.sensors.isSome = true := by
  refine mapRS_mem_prop (fun s e => ?_) segs e
  rcases hss : s.sensors with _ | v
  · rw [migrateSegStep_none s e hss]
    rfl
  · rw [migrateSegStep_some s e v hss]
    rw [hss]
    rfl

theorem migrateSegments_id_of_some (segs : List BlobSegment) (e : Env)
    (h : ∀ s ∈ segs, s.sensors.isSome = true) : migrateSegments segs e = (segs, e) := by
  refine mapRS_eq_of_id segs e _ (fun s hs e0 => ?_)
  rcases hss : s.sensors with _ | v
  · have hcontra := h s hs
    rw [hss] at hcontra
    simp at hcontra
  · exact migrateSegStep_some s e0 v hss

theorem migrateSegments_valid (segs : List BlobSegment) {e : Env} (h : e.Valid) :
    (migrateSegments segs e).2.Valid := by
  refine mapRS_inv (fun s e0 hv => ?_) segs e h
  rcases hss : s.sensors with _ | v
  · rw [migrateSegStep_none s e0 hss]
    exact createSensors_valid _ _ hv.tail
  · rw [migrateSegStep_some s e0 v hss]
    exact hv

/-- The shape `migrateTapes` guarantees for every tape it emits: all
optional fields filled, segments present, every segment carrying a
`sensors` array. -/
def NormalizedTape (t : BlobTape) : Prop :=
  t.coordinates.isSome = true ∧ t.contractNumber.isSome = true ∧
  t.length.isSome = true ∧ t.width.isSome = true ∧ t.enabled.isSome = true ∧
  ∃ segs, t.segments = some segs ∧ ∀ s ∈ segs, s.sensors.isSome = true

theorem migrateTapes_normalized (ts : List BlobTape) (e : Env) :
    ∀ t' ∈ (migrateTapes ts e).1, NormalizedTape t' := by
  refine mapRS_mem_prop (fun t e0 => ?_) ts e
  refine ⟨rfl, rfl, rfl, rfl, rfl, (migrateSegments (t.segments.getD []) e0).1, rfl, ?_⟩
  exact migrateSegments_all_some _ e0

theorem migrateTapes_id_of_normalized (ts : List BlobTape) (e : Env)
    (h : ∀ t ∈ ts, NormalizedTape t) : migrateTapes ts e = (ts, e) := by
  refine mapRS_eq_of_id ts e _ (fun t ht e0 => ?_)
  obtain ⟨hco, hcn, hle, hwi, hen, segs, hsegs, hsens⟩ := h t ht
  obtain ⟨c, hc⟩ := Option.isSome_iff_exists.mp hco
  obtain ⟨cn, hcn2⟩ := Option.isSome_iff_exists.mp hcn
  obtain ⟨le, hle2⟩ := Option.isSome_iff_exists.mp hle
  obtain ⟨wi, hwi2⟩ := Option.isSome_iff_exists.mp hwi
  obtain ⟨en, hen2⟩ := Option.isSome_iff_exists.mp hen
  have hgd : t.segments.getD [] = segs := by rw [hsegs]; rfl
  have hmig : migrateSegments (t.segments.getD []) e0 = (segs, e0) := by
    rw [hgd]
    exact migrateSegments_id_of_some segs e0 hsens
  show (let p := migrateSegments (t.segments.getD []) e0
    ({ t with
        coordinates := some (t.coordinates.getD ""),
        contractNumber := some (t.contractNumber.getD ""),
        length := some (t.length.getD "24"),
        width := some (t.width.getD "50"),
        enabled := some (t.enabled.getD true),
        segments := some p.1 }, p.2)) = (t, e0)
  rw [hmig]
  have h1 : some (t.coordinates.getD "") = t.coordinates := by rw [hc]; rfl
  have h2 : some (t.contractNumber.getD "") = t.contractNumber := by rw [hcn2]; rfl
  have h3 : some (t.length.getD "24") = t.length := by rw [hle2]; rfl
  have h4 : some (t.width.getD "50") = t.width := by rw [hwi2]; rfl
  have h5 : some (t.enabled.getD true) = t.enabled := by rw [hen2]; rfl
  show ({ t with
      coordinates := some (t.coordinates.getD ""),
      contractNumber := some (t.contractNumber.getD ""),
      length := some (t.length.getD "24"),
      width := some (t.width.getD "50"),
      enabled := some (t.enabled.getD true),
      segments := some segs }, e0) = (t, e0)
  rw [h1, h2, h3, h4, h5, ← hsegs]

theorem loadSettings_with_tapes (b : Blob) (e : Env) (ts : List BlobTape)
    (hb : b.tapes = some ts) :
    loadSettings b e =
      ({ b with tapes := some (migrateTapes ts e).1 }, (migrateTapes ts e).2) := by
  unfold loadSettings
  rcases hseg : b.segments with _ | segs
  · simp only [hseg, hb]
  · simp only [hseg, hb]

/--
C8: migration is idempotent on snapshots that already carry a `tapes` key
and a `sensors` array on every segment: running `loadSettings`'s
normalization twice equals running it once (on both the snapshot and the
random stream).
-/
theorem C8_migration_idempotent (b : Blob) (e : Env)
    (h1 : b.tapes.isSome = true)
    (_h2 : ∀ t ∈ b.tapes.getD [], ∀ s ∈ t.segments.getD [], s.sensors.isSome = true) :
    loadSettings (loadSettings b e).1 (loadSettings b e).2 = loadSettings b e := by
  obtain ⟨ts, hts⟩ := Option.isSome_iff_exists.mp h1
  rw [loadSettings_with_tapes b e ts hts]
  rw [loadSettings_with_tapes _ _ (migrateTapes ts e).1 rfl]
  rw [migrateTapes_id_of_normalized _ _ (migrateTapes_normalized ts e)]

/-- A current-shape blob used to instantiate C8. -/
def wSensor : Sensor :=
  { id := "DS18B20-0101", serial := "28-000000000000", temperature := 2,
    status := SensorStatus.online, lastUpdate := "" }

/-- A blob segment already carrying a sensors array. -/
def wBlobSeg : BlobSegment :=
  { id := 1, name := "Сегмент 1", enabled := true, power := 50, temperature := 2,
    targetTemp := 5, status := SegStatus.normal, sensorId := "DS18B20-001",
    sensors := some [wSensor] }

/-- A blob tape with some fields missing, to exercise normalization. -/
def wBlobTape : BlobTape :=
  { id := 1, name := "Лента 1", coordinates := none, contractNumber := some "№2024-001",
    length := none, width := some "50", segments := some [wBlobSeg], enabled := some true }

/-- A current-shape persisted blob. -/
def wBlob : Blob :=
  { tapes := some [wBlobTape], segments := none, tapeLength := none, tapeWidth := none,
    alerts := none, systemOn := none, autoMode := none, thresholdTemp := none,
    alertSound := none, pollInterval := none }

/-- Witness for C8 at a concrete current-shape blob. -/
theorem C8_migration_idempotent_witness :
    wBlob.tapes.isSome = true ∧
    (∀ t ∈ wBlob.tapes.getD [], ∀ s ∈ t.segments.getD [], s.sensors.isSome = true) ∧
    loadSettings (loadSettings wBlob (Env.mk (fun _ => 0) "")).1
        (loadSettings wBlob (Env.mk (fun _ => 0) "")).2 =
      loadSettings wBlob (Env.mk (fun _ => 0) "") :=
  ⟨by decide, by decide,
   C8_migration_idempotent wBlob (Env.mk (fun _ => 0) "") (by decide) (by decide)⟩

theorem migrateSegments_forall2 (segs : List BlobSegment) (e : Env) (hv : Env.Valid e) :
    List.Forall₂ (fun s s' =>
      s' = { s with sensors := s'.sensors } ∧
      (s.sensors = none → ∃ l, s'.sensors = some l ∧ 2 ≤ l.length ∧ l.length ≤ 4) ∧
      (∀ v, s.sensors = some v → s' = s)) segs (migrateSegments segs e).1 := by
  refine (mapRS_forall2 _ (fun _ => True) Env.Valid ?_ segs e (fun _ _ => trivial) hv).1
  intro s0 _ e1 hv1
  rcases hss : s0.sensors with _ | v
  · rw [migrateSegStep_none s0 e1 hss]
    have hr0 : (0 : ℚ) ≤ e1.next.1 := (hv1 0).1
    have hr1 : e1.next.1 < 1 := (hv1 0).2
    have hfl0 : (0 : ℤ) ≤ ⌊e1.next.1 * 3⌋ := by
      rw [Int.le_floor]
      push_cast
      nlinarith
    have hfl1 : ⌊e1.next.1 * 3⌋ < 3 := by
      rw [Int.floor_lt]
      push_cast
      nlinarith
    refine ⟨⟨rfl, fun _ => ?_, fun v hvv => ?_⟩, ?_⟩
    · refine ⟨(createSensors s0.id (2 + ⌊e1.next.1 * 3⌋).toNat e1.next.2).1, rfl, ?_, ?_⟩
      · rw [createSensors_length]
        omega
      · rw [createSensors_length]
        omega
    · exact Option.noConfusion hvv
    · exact createSensors_valid _ _ hv1.tail
  · rw [migrateSegStep_some s0 e1 v hss]
    refine ⟨⟨rfl, fun hnone => Option.noConfusion hnone, fun _ _ => rfl⟩, hv1⟩

/--
C7 (amended): loading a legacy blob with a top-level `segments` array and
no `tapes` key yields exactly one tape with id 1, empty coordinates and
contract number, length/width from the legacy `tapeLength`/`tapeWidth`
fields (empty or missing values defaulting to "24"/"50"), enabled true,
containing exactly the legacy segments with the legacy `segments` key
removed; every segment that lacked a `sensors` array receives a freshly
generated one with 2 to 4 sensors, and every segment that already had a
`sensors` array keeps it unchanged (so it is non-empty only if it was).
-/
theorem C7_legacy_migration (b : Blob) (e : Env) (hv : Env.Valid e)
    (segs : List BlobSegment) (hseg : b.segments = some segs) (htape : b.tapes = none) :
    ∃ nt : BlobTape,
      (loadSettings b e).1.tapes = some [nt] ∧
      (loadSettings b e).1.segments = none ∧
      nt.id = 1 ∧ nt.name = "Лента 1" ∧
      nt.coordinates = some "" ∧ nt.contractNumber = some "" ∧
      nt.length = some (jsOrStr b.tapeLength "24") ∧
      nt.width = some (jsOrStr b.tapeWidth "50") ∧
      nt.enabled = some true ∧
      ∃ msegs : List BlobSegment, nt.segments = some msegs ∧
        List.Forall₂ (fun s s' =>
          s' = { s with sensors := s'.sensors } ∧
          (s.sensors = none → ∃ l, s'.sensors = some l ∧ 2 ≤ l.length ∧ l.length ≤ 4) ∧
          (∀ v, s.sensors = some v → s' = s)) segs msegs := by
  have hload : loadSettings b e =
      ({ b with
          tapes := some [{ id := 1,
                           name := "Лента 1",
                           coordinates := some "",
                           contractNumber := some "",
                           length := some (jsOrStr b.tapeLength "24"),
                           width := some (jsOrStr b.tapeWidth "50"),
                           segments := some (migrateSegments segs e).1,
                           enabled := some true }],
          segments := none }, (migrateSegments segs e).2) := by
    unfold loadSettings
    simp only [hseg, htape]
    rw [migrateTapes_id_of_normalized _ _ (fun t ht => by
      rw [List.mem_singleton] at ht
      subst ht
      exact ⟨rfl, rfl, rfl, rfl, rfl, (migrateSegments segs e).1, rfl,
        migrateSegments_all_some segs e⟩)]
  refine ⟨_, by rw [hload], by rw [hload], rfl, rfl, rfl, rfl, rfl, rfl, rfl,
    (migrateSegments segs e).1, rfl, migrateSegments_forall2 segs e hv⟩

/-- A legacy blob segment with no sensors array (schema v1). -/
def wLegacySeg : BlobSegment :=
  { id := 1, name := "Сегмент 1", enabled := true, power := 50, temperature := 2,
    targetTemp := 5, status := SegStatus.normal, sensorId := "DS18B20-001", sensors := none }

/-- A legacy persisted blob: flat segments, no tapes key. -/
def wLegacyBlob : Blob :=
  { tapes := none, segments := some [wLegacySeg], tapeLength := some "30", tapeWidth := none,
    alerts := none, systemOn := none, autoMode := none, thresholdTemp := none,
    alertSound := none, pollInterval := none }

/-- Witness for the amended C7 at a concrete legacy blob. -/
theorem C7_legacy_migration_witness :
    Env.Valid (Env.mk (fun _ => 0) "") ∧
    wLegacyBlob.segments = some [wLegacySeg] ∧ wLegacyBlob.tapes = none ∧
    (∃ nt : BlobTape,
      (loadSettings wLegacyBlob (Env.mk (fun _ => 0) "")).1.tapes = some [nt] ∧
      (loadSettings wLegacyBlob (Env.mk (fun _ => 0) "")).1.segments = none ∧
      nt.id = 1 ∧ nt.name = "Лента 1" ∧
      nt.coordinates = some "" ∧ nt.contractNumber = some "" ∧
      nt.length = some (jsOrStr wLegacyBlob.tapeLength "24") ∧
      nt.width = some (jsOrStr wLegacyBlob.tapeWidth "50") ∧
      nt.enabled = some true ∧
      ∃ msegs : List BlobSegment, nt.segments = some msegs ∧
        List.Forall₂ (fun s s' =>
          s' = { s with sensors := s'.sensors } ∧
          (s.sensors = none → ∃ l, s'.sensors = some l ∧ 2 ≤ l.length ∧ l.length ≤ 4) ∧
          (∀ v, s.sensors = some v → s' = s)) [wLegacySeg] msegs) :=
  ⟨fun n => ⟨le_refl 0, by norm_num⟩, rfl, rfl,
   C7_legacy_migration wLegacyBlob (Env.mk (fun _ => 0) "")
     (fun n => ⟨le_refl 0, by norm_num⟩) [wLegacySeg] rfl rfl⟩

/-- A legacy blob segment that already carries an EMPTY sensors array. -/
def cexEmptySensorsSeg : BlobSegment :=
  { id := 1, name := "Сегмент 1", enabled := true, power := 50, temperature := 2,
    targetTemp := 5, status := SegStatus.normal, sensorId := "DS18B20-001",
    sensors := some [] }

/-- A legacy persisted blob whose single segment has an empty sensors array. -/
def cexLegacyBlob : Blob :=
  { tapes := none, segments := some [cexEmptySensorsSeg], tapeLength := none,
    tapeWidth := none, alerts := none, systemOn := none, autoMode := none,
    thresholdTemp := none, alertSound := none, pollInterval := none }

/--
C7 counterexample: migrating a legacy blob whose single segment carries
`sensors: []` produces one tape whose single segment still has an EMPTY
sensors array — refuting the claim that every migrated segment carries a
non-empty sensors array.
-/
theorem C7_counterexample :
    (((loadSettings cexLegacyBlob (Env.mk (fun _ => 0) "")).1.tapes.getD []).flatMap
        (fun t => t.segments.getD [])).map (fun s => s.sensors) = [some []] ∧
    (loadSettings cexLegacyBlob (Env.mk (fun _ => 0) "")).1.segments = none := by
  exact ⟨rfl, rfl⟩

end HeaterTape
